import Mathlib

/-!
Verification of the time-series transformation pipeline engine
(`autots/tools/transform.py` and `autots/tools/seasonal.py`).

Frames are modelled column-major: a value is an `Option ℚ` (with `none`
playing the role of pandas `NaN`), a series is a `List V` of values in
time order, and a labeled frame `DFrame` carries an index (timestamps,
abstracted to integers), column names, and one value list per column.
Rational numbers stand for the float values; floating-point rounding is
outside the embedding.
-/

/-- A single cell value: `none` is pandas `NaN`. -/
abbrev V := Option ℚ

/-- NaN-propagating subtraction, as in pandas elementwise `-`. -/
def vSub : V → V → V
  | some a, some b => some (a - b)
  | _, _ => none

/-- NaN-propagating addition, as in pandas elementwise `+`. -/
def vAdd : V → V → V
  | some a, some b => some (a + b)
  | _, _ => none

/-- NaN-propagating multiplication by a scalar. -/
def vScale (c : ℚ) : V → V
  | some a => some (c * a)
  | none => none

/-- `Series.shiftN k l` is pandas `shift(k)`: each row takes the value `k`
rows earlier, the first `k` rows become NaN, length is preserved. -/
def shiftN (k : ℕ) (l : List V) : List V :=
  (List.replicate k none ++ l).take l.length

/-- pandas `fillna(method="bfill")` on one column: a NaN takes the next
later non-NaN value, if any. -/
def bfill : List V → List V
  | [] => []
  | a :: l =>
    let r := bfill l
    (match a with
     | some v => some v
     | none => r.headD none) :: r

/-- Helper for `ffill`, carrying the last seen non-NaN value. -/
def ffillAux (carry : V) : List V → List V
  | [] => []
  | a :: l =>
    match a with
    | some v => some v :: ffillAux (some v) l
    | none => carry :: ffillAux carry l

/-- pandas `fillna(method="ffill")` on one column: a NaN takes the last
earlier non-NaN value, if any. -/
def ffill (l : List V) : List V := ffillAux none l

/-- Helper for `cumsum`, carrying the running total (pandas skips NaN:
a NaN cell stays NaN and does not reset the running sum). -/
def cumsumAux (acc : ℚ) : List V → List V
  | [] => []
  | none :: l => none :: cumsumAux acc l
  | some v :: l => some (acc + v) :: cumsumAux (acc + v) l

/-- pandas `cumsum()` (default `skipna=True`) on one column. -/
def cumsum (l : List V) : List V := cumsumAux 0 l

/-- Helper for `cumprod`, carrying the running product. -/
def cumprodAux (acc : ℚ) : List V → List V
  | [] => []
  | none :: l => none :: cumprodAux acc l
  | some v :: l => some (acc * v) :: cumprodAux (acc * v) l

/-- pandas `cumprod()` (default `skipna=True`) on one column. -/
def cumprod (l : List V) : List V := cumprodAux 1 l

/-- pandas `tail(k)` for a non-negative count: the last `k` rows
(`tail(0)` is empty). -/
def seriesTail (k : ℕ) (l : List V) : List V := l.drop (l.length - k)

/-- pandas `head(k)` for a non-negative count: the first `k` rows. -/
def seriesHead (k : ℕ) (l : List V) : List V := l.take k

/-- pandas `tail(k)` for a possibly negative count: `tail(0)` is empty,
`tail(k)` with `k > 0` is the last `k` rows, and `tail(-m)` is every row
except the first `m`. -/
def seriesTailI (k : ℤ) (l : List V) : List V :=
  if k = 0 then []
  else if 0 < k then l.drop (l.length - k.toNat)
  else l.drop (-k).toNat

/-- The window pandas `rolling(window=w, min_periods=1)` sees at row `t`:
the rows `max 0 (t+1-w) .. t`. -/
def windowSlice (w t : ℕ) (l : List V) : List V :=
  (l.take (t + 1)).drop (t + 1 - w)

/-- pandas `rolling(window=w, min_periods=1).mean()` on one column: the
mean of the non-NaN values in the trailing window, NaN when the window
holds no observation. -/
def rollingMeanV (w : ℕ) (l : List V) : List V :=
  (List.range l.length).map (fun t =>
    let obs := (windowSlice w t l).filterMap id
    if obs.length = 0 then none else some (obs.sum / obs.length))

/-- Lift a NaN-free rational column into the value representation. -/
def someL (xs : List ℚ) : List V := xs.map some

/-- A labeled frame: a timestamp index, column names, and column-major
data. Well-formedness (each column as long as the index) is assumed
where stated. -/
structure DFrame where
  idx : List ℤ
  names : List String
  cols : List (List V)
  deriving Repr, DecidableEq

/-- Every column has exactly one value per index entry. -/
def DFrame.WF (F : DFrame) : Prop := ∀ c ∈ F.cols, c.length = F.idx.length

/-- No cell of the frame is NaN. -/
def DFrame.noNaN (F : DFrame) : Prop := ∀ c ∈ F.cols, ∀ v ∈ c, v.isSome

/-- Boolean NaN test over the values, pandas `df.isnull().values.any()`. -/
def DFrame.anyNaN (F : DFrame) : Bool := F.cols.any (fun c => c.any (·.isNone))

/-- Apply a column operation to every column, keeping index and names
(the shape of pandas columnwise transforms such as `shift`, `cumsum`). -/
def DFrame.mapCols (f : List V → List V) (F : DFrame) : DFrame :=
  ⟨F.idx, F.names, F.cols.map f⟩

/-- Pointwise binary frame operation (pandas aligned elementwise
arithmetic); index and names are the left operand's. -/
def DFrame.zipCols (f : List V → List V → List V) (A B : DFrame) : DFrame :=
  ⟨A.idx, A.names, List.zipWith f A.cols B.cols⟩

/-- pandas `head(k)` on a frame. -/
def DFrame.headN (k : ℕ) (F : DFrame) : DFrame :=
  ⟨F.idx.take k, F.names, F.cols.map (fun c => c.take k)⟩

/-- pandas `tail(k)` on a frame, non-negative count. -/
def DFrame.tailN (k : ℕ) (F : DFrame) : DFrame :=
  ⟨F.idx.drop (F.idx.length - k), F.names, F.cols.map (seriesTail k)⟩

/-- pandas `tail(k)` on a frame, possibly negative count. -/
def DFrame.tailI (k : ℤ) (F : DFrame) : DFrame :=
  ⟨(if k = 0 then []
    else if 0 < k then F.idx.drop (F.idx.length - k.toNat)
    else F.idx.drop (-k).toNat),
   F.names, F.cols.map (seriesTailI k)⟩

/-- pandas `pd.concat([A, B], axis=0)`: rows of `B` after rows of `A`
(columns aligned positionally; all uses have identical column sets). -/
def DFrame.vconcat (A B : DFrame) : DFrame :=
  ⟨A.idx ++ B.idx, A.names, List.zipWith (· ++ ·) A.cols B.cols⟩

/-- pandas elementwise frame subtraction. -/
def DFrame.sub (A B : DFrame) : DFrame := A.zipCols (List.zipWith vSub) B

/-- pandas elementwise frame addition. -/
def DFrame.add (A B : DFrame) : DFrame := A.zipCols (List.zipWith vAdd) B

/-- Fill every NaN cell with a constant, pandas `fillna(value)`. -/
def colFillWith (v : V) (c : List V) : List V :=
  c.map (fun x => match x with | some a => some a | none => v)

/-- Number of rows of the frame (`df.shape[0]`, the index length). -/
def DFrame.rows (F : DFrame) : ℕ := F.idx.length

/-- Number of columns of the frame (`df.shape[1]`). -/
def DFrame.width (F : DFrame) : ℕ := F.cols.length

/-! ## Transformer method modes -/

/-- The `trans_method` argument of every oddity inverse: `forecast` means
the input immediately follows the fit history, `original` that it covers
the fit support. -/
inductive TransMethod
  | forecast
  | original
  deriving Repr, DecidableEq

/-! ## DifferencedTransformer (transform.py 1223-1281) -/

/-- Fit state of `DifferencedTransformer` (`lag = 1` always in source):
the first and last fit rows. -/
structure DiffState where
  first : DFrame
  last : DFrame
  deriving Repr, DecidableEq

/-- `DifferencedTransformer.fit`: store `df.head(1)` and `df.tail(1)`. -/
def differencedFit (df : DFrame) : DiffState :=
  ⟨df.headN 1, df.tailN 1⟩

/-- `DifferencedTransformer.transform`: `(df - df.shift(1)).fillna(method="bfill")`. -/
def differencedTransform (df : DFrame) : DFrame :=
  (df.sub (df.mapCols (shiftN 1))).mapCols bfill

/-- `DifferencedTransformer.inverse_transform`: in `original` mode,
prepend the stored first row to the tail of the input and cumulative-sum;
in `forecast` mode, prepend the stored last row, raise on any NaN, then
cumulative-sum and keep the trailing input-length rows. -/
def differencedInverse (st : DiffState) (tm : TransMethod) (df : DFrame) :
    Except String DFrame :=
  match tm with
  | .original =>
      .ok ((st.first.vconcat (df.tailI ((df.rows : ℤ) - 1))).mapCols cumsum)
  | .forecast =>
      let c := st.last.vconcat df
      if c.anyNaN then
        .error "NaN in DifferencedTransformer.inverse_transform"
      else
        .ok ((c.mapCols cumsum).tailN df.rows)

/-! ## CumSumTransformer (transform.py 1350-1406) -/

/-- Fit state of `CumSumTransformer`: first and last fit rows. -/
structure CumState where
  first : DFrame
  last : DFrame
  deriving Repr, DecidableEq

/-- `CumSumTransformer.fit`. -/
def cumsumFit (df : DFrame) : CumState :=
  ⟨df.headN 1, df.tailN 1⟩

/-- `CumSumTransformer.transform`: `df.cumsum(skipna=True)`. -/
def cumsumTransform (df : DFrame) : DFrame := df.mapCols cumsum

/-- `CumSumTransformer.inverse_transform`: first-difference against the
stored seed row; never raises in either mode. -/
def cumsumInverse (st : CumState) (tm : TransMethod) (df : DFrame) :
    Except String DFrame :=
  match tm with
  | .original =>
      .ok (st.first.vconcat ((df.sub (df.mapCols (shiftN 1))).tailI ((df.rows : ℤ) - 1)))
  | .forecast =>
      let c := st.last.vconcat df
      .ok ((c.sub (c.mapCols (shiftN 1))).tailN df.rows)

/-! ## PctChangeTransformer (transform.py 1284-1347) -/

/-- Replace exact zeros by NaN, pandas `replace([0], np.nan)`. -/
def colReplaceZero (c : List V) : List V :=
  c.map (fun v => if v = some 0 then none else v)

/-- Smallest absolute value among the non-NaN non-zero entries of a
column, `(df[df != 0]).abs().min()`; NaN when there is none. -/
def colNonzeroAbsMin (c : List V) : V :=
  (((c.filterMap id).filter (fun x => x ≠ 0)).map (fun x => |x|)).foldr
    (fun x acc => match acc with
      | none => some x
      | some m => some (min x m)) none

/-- The zero-sanitising used by `PctChangeTransformer`:
`replace([0], nan).fillna(columnwise nonzero abs min).fillna(0.1)`; the
fill value is computed on `src`. -/
def pctSanitize (src c : List V) : List V :=
  colFillWith (some (1 / 10)) (colFillWith (colNonzeroAbsMin src) (colReplaceZero c))

/-- Fit state of `PctChangeTransformer`: first and last sanitised rows. -/
structure PctState where
  first : DFrame
  last : DFrame
  deriving Repr, DecidableEq

/-- `PctChangeTransformer.fit`: sanitise zeros/NaN, keep head(1)/tail(1). -/
def pctChangeFit (df : DFrame) : PctState :=
  let temp : DFrame := ⟨df.idx, df.names, df.cols.map (fun c => pctSanitize c c)⟩
  ⟨temp.headN 1, temp.tailN 1⟩

/-- One column of pandas `pct_change(periods=1, fill_method="ffill")`:
forward-fill, then `x[t] / x[t-1] - 1` with a NaN first row. -/
def pctChangeCol (c : List V) : List V :=
  let f := ffill c
  List.zipWith (fun a b =>
    match a, b with
    | some x, some y => some (x / y - 1)
    | _, _ => none) f (shiftN 1 f)

/-- `PctChangeTransformer.transform` (the final `replace([inf], 0)` is
vacuous in exact arithmetic because zeros were replaced beforehand). -/
def pctChangeTransform (df : DFrame) : DFrame :=
  ⟨df.idx, df.names,
   df.cols.map (fun c =>
     colFillWith (some 0) (pctChangeCol (pctSanitize c c)))⟩

/-- `PctChangeTransformer.inverse_transform`: add one, re-sanitise zeros,
then cumulative-product seeded by the stored first (original mode) or
last (forecast mode) row; never raises. -/
def pctChangeInverse (st : PctState) (tm : TransMethod) (df : DFrame) :
    Except String DFrame :=
  let d2 : DFrame :=
    ⟨df.idx, df.names,
     df.cols.map (fun c =>
       let c1 := colReplaceZero (c.map (fun v => vAdd v (some 1)))
       colFillWith (some (1 / 10)) (colFillWith (colNonzeroAbsMin c1) c1))⟩
  match tm with
  | .original =>
      .ok ((st.first.vconcat (d2.tailI ((d2.rows : ℤ) - 1))).mapCols cumprod)
  | .forecast =>
      .ok (((st.last.vconcat d2).mapCols cumprod).tailN d2.rows)

/-! ## RollingMeanTransformer (transform.py 850-957) -/

/-- Fit state of `RollingMeanTransformer`. -/
structure RollState where
  window : ℕ
  fixed : Bool
  lastV : DFrame
  firstV : DFrame
  lastRolling : DFrame
  deriving Repr, DecidableEq

/-- `RollingMeanTransformer.fit`: keep the last/first `window` rows
(ffill then bfill), and the last rolling value of the fit data. -/
def rollingFit (w : ℕ) (fixed : Bool) (df : DFrame) : RollState :=
  ⟨w, fixed,
   (df.tailN w).mapCols (fun c => bfill (ffill c)),
   (df.headN w).mapCols (fun c => bfill (ffill c)),
   ((df.tailN (w + 1)).mapCols (rollingMeanV w)).tailN 1⟩

/-- `RollingMeanTransformer.transform`: trailing rolling mean. -/
def rollingTransform (w : ℕ) (df : DFrame) : DFrame :=
  df.mapCols (rollingMeanV w)

/-- The sequential reconstruction loop of
`RollingMeanTransformer.inverse_transform` on one column: row `n` of the
differenced data plus row `n` of the staged (growing) data is appended
to the staged data. -/
def stagedLoop (staged diffed : List V) (j : ℕ) : List V :=
  match diffed with
  | [] => staged
  | d :: ds => stagedLoop (staged ++ [vAdd d (staged.getD j none)]) ds (j + 1)

/-- `RollingMeanTransformer.inverse_transform`. With `fixed` the input is
returned unchanged. In `original` mode the staged data starts from the
stored first rows and `((df - df.shift(1)) * window).tail(n - window)`
is integrated row by row; in `forecast` mode the stored last rolling row
is prepended first and the staged data starts from the stored last rows. -/
def rollingInverse (st : RollState) (tm : TransMethod) (df : DFrame) : DFrame :=
  if st.fixed then df
  else
    match tm with
    | .original =>
        let diffed := ((df.sub (df.mapCols (shiftN 1))).mapCols
            (List.map (vScale (st.window : ℚ)))).tailI ((df.rows : ℤ) - (st.window : ℤ))
        ⟨st.firstV.idx ++ diffed.idx, diffed.names,
         List.zipWith (fun fc dc => stagedLoop fc dc 0) st.firstV.cols diffed.cols⟩
    | .forecast =>
        let c := st.lastRolling.vconcat df
        let diffed := ((c.sub (c.mapCols (shiftN 1))).mapCols
            (List.map (vScale (st.window : ℚ)))).tailI ((c.rows : ℤ) - 1)
        let staged :=
          ⟨st.lastV.idx ++ diffed.idx, diffed.names,
           List.zipWith (fun fc dc => stagedLoop fc dc 0) st.lastV.cols diffed.cols⟩
        DFrame.tailN diffed.rows staged

/-! ## SeasonalDifference (transform.py 960-1050) -/

/-- `int(np.ceil(a / b))` for naturals. -/
def ceilDiv (a b : ℕ) : ℕ := (a + b - 1) / b

/-- `np.tile` along the row axis: `reps` copies of the block. -/
def tileL (reps : ℕ) (block : List V) : List V :=
  match reps with
  | 0 => []
  | r + 1 => block ++ tileL r block

/-- Mean of the non-NaN entries of a list (pandas groupby `mean`). -/
def groupMean (c : List V) : V :=
  let obs := c.filterMap id
  if obs.length = 0 then none else some (obs.sum / obs.length)

/-- Median of the non-NaN entries of a list (pandas groupby `median`):
midpoint of the sorted values. -/
def groupMedian (c : List V) : V :=
  let obs := (c.filterMap id).mergeSort (fun a b => decide (a ≤ b))
  if obs.length = 0 then none
  else if obs.length % 2 = 1 then some (obs.getD (obs.length / 2) 0)
  else some ((obs.getD (obs.length / 2 - 1) 0 + obs.getD (obs.length / 2) 0) / 2)

/-- The phase label `SeasonalDifference.fit` attaches to row `i` of an
`n`-row frame: `np.tile(np.arange(lag), ceil(n/lag))` truncated to its
last `n` entries. -/
def phaseLabel (lag n i : ℕ) : ℕ := (lag * ceilDiv n lag - n + i) % lag

/-- The rows of phase `g`. -/
def phaseRows (lag n g : ℕ) : List ℕ :=
  (List.range n).filter (fun i => phaseLabel lag n i = g)

/-- The `Mean`/`Median` branch of `SeasonalDifference.fit`: group the
rows by phase and aggregate each group; the groupby index is the sorted
list of phases that occur. -/
def sdGrouped (agg : List V → V) (lag : ℕ) (df : DFrame) : DFrame :=
  let n := df.rows
  let phases := (List.range lag).filter (fun g => ¬ (phaseRows lag n g).isEmpty)
  ⟨phases.map (fun g => (g : ℤ)), df.names,
   df.cols.map (fun c =>
     phases.map (fun g => agg ((phaseRows lag n g).map (fun i => c.getD i none))))⟩

/-- `SeasonalDifference.fit`: the `Mean`/`Median` branch groups by phase;
every other method string (the `self.method == "LastValue"` line is a
bare comparison, not an assignment) stores `df.tail(lag_1)`. -/
def seasonalDifferenceFit (method : String) (lag : ℕ) (df : DFrame) : DFrame :=
  if method = "Mean" ∨ method = "Median" then
    (if method = "Median" then sdGrouped groupMedian lag df
     else sdGrouped groupMean lag df)
  else df.tailN lag

/-- `SeasonalDifference.transform`: tile the stored seasonal block to the
input length (aligned at the end) and subtract. -/
def seasonalDifferenceTransform (tile : DFrame) (df : DFrame) : DFrame :=
  let tileLen := tile.rows
  let n := df.rows
  ⟨df.idx, df.names,
   List.zipWith (fun dc tc =>
       List.zipWith vSub dc (seriesTail n (tileL (ceilDiv n tileLen) tc)))
     df.cols tile.cols⟩

/-- `SeasonalDifference.inverse_transform`: tile the stored block, align
at the end (`original`) or the start (`forecast`), and add. -/
def seasonalDifferenceInverse (tile : DFrame) (tm : TransMethod) (df : DFrame) :
    DFrame :=
  let tileLen := tile.rows
  let n := df.rows
  ⟨df.idx, df.names,
   List.zipWith (fun dc tc =>
       let sdf := tileL (ceilDiv n tileLen) tc
       List.zipWith vAdd dc
         (match tm with
          | .original => seriesTail n sdf
          | .forecast => sdf.take n))
     df.cols tile.cols⟩

/-! ## Seasonal feature generator: common_fourier band selection
(seasonal.py 189-236) -/

/-- One Fourier band: `fourier_series(t, p, n)` = cos/sin bases at
`2 pi k / p`, `k = 1..n`.  The band is kept symbolic (period and order);
the trigonometric evaluation is outside the claims. -/
structure FourierBand where
  p : ℚ
  n : ℕ
  deriving Repr, DecidableEq

/-- One entry appended to `seasonal_list`: a plain band, or the
elementwise product of two bands (the "interactions"). -/
inductive SeasonalTerm
  | single (b : FourierBand)
  | interaction (b1 b2 : FourierBand)
  deriving Repr, DecidableEq

/-- `seasonal_ratio = (DTmax.year - DTmin.year + 1) / len(DTindex)` of
`date_part`'s `common_fourier` branch. -/
def yearsPerSample (minYear maxYear : ℤ) (count : ℕ) : ℚ :=
  ((maxYear - minYear + 1 : ℤ) : ℚ) / (count : ℚ)

/-- The band list of the `seasonal_ratio < 0.001` branch ("add hourly,
weekly, yearly", on an hour-resolution time origin). -/
def hourlyWeeklyYearlyBands : List SeasonalTerm :=
  [.single ⟨8766, 10⟩, .single ⟨24, 3⟩, .single ⟨168, 5⟩,
   .interaction ⟨168, 5⟩ ⟨24, 5⟩, .interaction ⟨168, 3⟩ ⟨8766, 3⟩]

/-- The band list of the `0.001 <= seasonal_ratio < 0.012` branch
("daily (+ business day)": yearly and weekly seasonality on days). -/
def dailyWeeklyBands : List SeasonalTerm :=
  [.single ⟨1461 / 4, 10⟩, .single ⟨7, 3⟩, .interaction ⟨7, 5⟩ ⟨7, 5⟩]

/-- The band list of the `0.012 <= seasonal_ratio < 0.05` branch
("weekly"). -/
def weeklyBands : List SeasonalTerm :=
  [.single ⟨1461 / 4, 10⟩, .single ⟨28, 3⟩]

/-- The band list of the `0.05 <= seasonal_ratio < 0.5` branch
("monthly"). -/
def monthlyBands : List SeasonalTerm :=
  [.single ⟨1461 / 4, 3⟩, .single ⟨1461, 10⟩]

/-- The band list of the `seasonal_ratio >= 0.5` branch ("yearly"). -/
def yearlyBands : List SeasonalTerm :=
  [.single ⟨1461, 10⟩]

/-- The `common_fourier` branch of `date_part`, reduced to the data that
determines it: the year of the first and last timestamp and the sample
count.  Mirrors the if/elif chain of seasonal.py lines 194-233. -/
def commonFourierTerms (minYear maxYear : ℤ) (count : ℕ) : List SeasonalTerm :=
  let r := yearsPerSample minYear maxYear count
  if r < 1 / 1000 then hourlyWeeklyYearlyBands
  else if r < 12 / 1000 then dailyWeeklyBands
  else if r < 1 / 20 then weeklyBands
  else if r < 1 / 2 then monthlyBands
  else yearlyBands

/-- The five granularity buckets named by the specification. -/
inductive FourierBucket
  | hourly
  | daily
  | weekly
  | monthly
  | yearly
  deriving Repr, DecidableEq

/-- Modelled from the spec's words: bucket the ratio at the thresholds
`{0.001, 0.012, 0.05, 0.5}`. -/
def bucketOf (r : ℚ) : FourierBucket :=
  if r < 1 / 1000 then .hourly
  else if r < 12 / 1000 then .daily
  else if r < 1 / 20 then .weekly
  else if r < 1 / 2 then .monthly
  else .yearly

/-- Modelled from the spec's words: the harmonic band set of each
bucket, decreasing granularity as the ratio grows. -/
def bandsOfBucket : FourierBucket → List SeasonalTerm
  | .hourly => hourlyWeeklyYearlyBands
  | .daily => dailyWeeklyBands
  | .weekly => weeklyBands
  | .monthly => monthlyBands
  | .yearly => yearlyBands

/-! ## GeneralTransformer orchestrator (transform.py 3306-3701)

Individual step objects are opaque to the orchestrator: each is a record
of a `fit_transform`, a `transform` and an `inverse_transform` function,
supplied as oracles in the theorems; only `EmptyTransformer` is given its
concrete (identity) behavior.  A step may return either a labeled frame
or a bare array (as sklearn transformers do), which the orchestrator
re-wraps. -/

/-- A caught-and-re-raised Python exception: either an original error or
a wrapper naming a step (`raise Exception(msg) from e`). -/
inductive PyErr
  | base (msg : String)
  | wrapped (msg : String) (cause : PyErr)
  deriving Repr, DecidableEq

/-- A step's output: a labeled frame, or a bare (column-major) array. -/
inductive PVal
  | table (F : DFrame)
  | raw (cols : List (List V))
  deriving Repr, DecidableEq

/-- One fitted/fittable transformer object as the orchestrator sees it.
`invTransform` receives the `trans_method` flag only when the
orchestrator decides to pass it, and likewise the `bounds` flag. -/
structure TransObj where
  fitTransform : DFrame → Except PyErr PVal
  transform : DFrame → Except PyErr PVal
  invTransform : Option TransMethod → Option Bool → DFrame → Except PyErr PVal

/-- `EmptyTransformer`: every method returns the input unchanged. -/
def emptyTransObj : TransObj :=
  ⟨fun df => .ok (.table df), fun df => .ok (.table df), fun _ _ df => .ok (.table df)⟩

/-- A transformation name: Python `None` or a string. -/
abbrev TName := Option String

/-- `str(name)` as used in the wrap message. -/
def showTName : TName → String
  | some s => s
  | none => "None"

/-- `GeneralTransformer.__init__`: names whose inverse differs between
upper/lower forecast bounds (`self.bounded_oddities`). -/
def boundedOddities : List TName := [some "AlignLastValue"]

/-- `GeneralTransformer.__init__`: names whose inverse needs the
forecast/original `trans_method` flag (`self.oddities_list`). -/
def odditiesList : List TName :=
  [some "DifferencedTransformer", some "RollingMean100thN",
   some "RollingMean10thN", some "RollingMean10", some "RollingMean",
   some "RollingMeanTransformer", some "PctChangeTransformer",
   some "CumSumTransformer", some "SeasonalDifference",
   some "SeasonalDifferenceMean", some "SeasonalDifference7",
   some "SeasonalDifference12", some "SeasonalDifference28",
   some "MeanDifference", some "AlignLastValue"]

/-- Keys of the module-level `trans_dict` catalog (non-parameterized
transformers). -/
def transDictKeys : List TName :=
  [some "None", none, some "RollingMean10", some "DifferencedTransformer",
   some "PctChangeTransformer", some "SinTrend", some "SineTrend",
   some "PositiveShift", some "Log", some "CumSumTransformer",
   some "SeasonalDifference7", some "SeasonalDifference12",
   some "SeasonalDifference28", some "bkfilter", some "cffilter",
   some "convolution_filter", some "Discretize",
   some "DatepartRegressionLtd", some "DatepartRegressionElasticNet",
   some "DatepartRegressionRandForest", some "MeanDifference"]

/-- Keys of the module-level `n_jobs_trans` catalog. -/
def nJobsTransKeys : List TName :=
  [some "SinTrend", some "SineTrend", some "AnomalyRemoval",
   some "HolidayTransformer"]

/-- Keys of the module-level `have_params` catalog. -/
def haveParamsKeys : List TName :=
  [some "RollingMeanTransformer", some "SeasonalDifference",
   some "Discretize", some "CenterLastValue", some "IntermittentOccurrence",
   some "ClipOutliers", some "DatepartRegression", some "Round",
   some "Slice", some "Detrend", some "ScipyFilter", some "HPFilter",
   some "STLFilter", some "EWMAFilter", some "FastICA", some "PCA",
   some "BTCD", some "Cointegration", some "AlignLastValue",
   some "AnomalyRemoval", some "HolidayTransformer",
   some "LocalLinearTrend", some "KalmanSmoothing"]

/-- The explicit `elif transformation == ...` branches of
`retrieve_transformer` (sklearn scalers/decompositions and the window
shorthand names). -/
def explicitBranchKeys : List String :=
  ["MinMaxScaler", "PowerTransformer", "QuantileTransformer",
   "StandardScaler", "MaxAbsScaler", "RobustScaler", "PCA", "FastICA",
   "RollingMean", "FixedRollingMean", "SeasonalDifference",
   "SeasonalDifferenceMean", "RollingMean100thN", "RollingMean10thN"]

/-- `GeneralTransformer.retrieve_transformer` (lines 3452-3584).  All
catalog hits produce a transformer object through the construction
oracle `known` (a construction that itself raises, such as the `PCA`
shape guard, is modelled as the returned object's method raising); the
final `else` prints a message and returns `EmptyTransformer()`. -/
def retrieveTransformer (known : String → DFrame → TransObj) (t : TName)
    (df : DFrame) : TransObj :=
  if t ∈ transDictKeys then known (showTName t) df
  else if t ∈ nJobsTransKeys then known (showTName t) df
  else if t ∈ haveParamsKeys then known (showTName t) df
  else if t = some "MinMaxScaler" then known "MinMaxScaler" df
  else if t = some "PowerTransformer" then known "PowerTransformer" df
  else if t = some "QuantileTransformer" then known "QuantileTransformer" df
  else if t = some "StandardScaler" then known "StandardScaler" df
  else if t = some "MaxAbsScaler" then known "MaxAbsScaler" df
  else if t = some "RobustScaler" then known "RobustScaler" df
  else if t = some "PCA" then known "PCA" df
  else if t = some "FastICA" then known "FastICA" df
  else if t = some "RollingMean" ∨ t = some "FixedRollingMean" then
    known (showTName t) df
  else if t = some "SeasonalDifference" ∨ t = some "SeasonalDifferenceMean" then
    known (showTName t) df
  else if t = some "RollingMean100thN" then known "RollingMean100thN" df
  else if t = some "RollingMean10thN" then known "RollingMean10thN" df
  else emptyTransObj

/-- Ascending key order: Python `for i in sorted(self.transformations.keys())`. -/
def sortStepsAsc (steps : List (ℕ × TName)) : List (ℕ × TName) :=
  steps.mergeSort (fun a b => decide (a.1 ≤ b.1))

/-- Descending key order: `sorted(self.transformations.keys(), reverse=True)`. -/
def sortStepsDesc (steps : List (ℕ × TName)) : List (ℕ × TName) :=
  steps.mergeSort (fun a b => decide (b.1 ≤ a.1))

/-- Re-wrap a step output that is not a labeled frame, using the tracked
index and column names:
`pd.DataFrame(df, index=self.df_index, columns=self.df_colnames)`. -/
def wrapVal (idx : List ℤ) (names : List String) : PVal → DFrame
  | .table F => F
  | .raw m => ⟨idx, names, m⟩

/-- The mutable orchestrator state: the tracked index
(`self.df_index`), tracked column names (`self.df_colnames`) and the
frame flowing between steps. -/
structure GTState where
  tIdx : List ℤ
  tNames : List String
  cur : DFrame
  deriving Repr, DecidableEq

/-- The loop body of `GeneralTransformer._fit`: retrieve, fit-transform,
re-wrap non-frame output, update the tracked index/columns after
`Slice`/`FastICA`/`PCA`; a failure is wrapped as
`Transformer <name> failed on fit` and aborts. -/
def gtFitLoop (registry : TName → DFrame → TransObj)
    (steps : List (ℕ × TName)) (st : GTState) : Except PyErr GTState :=
  match steps with
  | [] => .ok st
  | (_, t) :: rest =>
    match (registry t st.cur).fitTransform st.cur with
    | .error e =>
        .error (.wrapped ("Transformer " ++ showTName t ++ " failed on fit") e)
    | .ok pv =>
        let df2 := wrapVal st.tIdx st.tNames pv
        if t = some "Slice" ∨ t = some "FastICA" ∨ t = some "PCA" then
          gtFitLoop registry rest ⟨df2.idx, df2.names, df2⟩
        else
          gtFitLoop registry rest ⟨st.tIdx, st.tNames, df2⟩

/-- `GeneralTransformer._fit` (also the body of `fit` and
`fit_transform`): NaN-fill only when NaN is present, then the fit loop
in ascending key order. -/
def gtFit (registry : TName → DFrame → TransObj) (fillNA : DFrame → DFrame)
    (cfg : List (ℕ × TName)) (df : DFrame) : Except PyErr DFrame :=
  let df0 := if df.anyNaN then fillNA df else df
  (gtFitLoop registry (sortStepsAsc cfg) ⟨df0.idx, df0.names, df0⟩).map (·.cur)

/-- The loop body of `GeneralTransformer.transform`: same traversal and
re-wrapping as the fit loop, using the already fitted objects, but with
no exception handler — a step failure propagates unwrapped. -/
def gtTransformLoop (tr : ℕ → TransObj) (steps : List (ℕ × TName))
    (st : GTState) : Except PyErr GTState :=
  match steps with
  | [] => .ok st
  | (k, t) :: rest =>
    match (tr k).transform st.cur with
    | .error e => .error e
    | .ok pv =>
        let df2 := wrapVal st.tIdx st.tNames pv
        if t = some "Slice" ∨ t = some "FastICA" ∨ t = some "PCA" then
          gtTransformLoop tr rest ⟨df2.idx, df2.names, df2⟩
        else
          gtTransformLoop tr rest ⟨st.tIdx, st.tNames, df2⟩

/-- `GeneralTransformer.transform`: NaN-fill when needed, then the
transform loop in ascending key order. -/
def gtTransform (tr : ℕ → TransObj) (fillNA : DFrame → DFrame)
    (cfg : List (ℕ × TName)) (df : DFrame) : Except PyErr DFrame :=
  let df0 := if df.anyNaN then fillNA df else df
  (gtTransformLoop tr (sortStepsAsc cfg) ⟨df0.idx, df0.names, df0⟩).map (·.cur)

/-- The loop body of `GeneralTransformer.inverse_transform`, mirroring
the Python control flow: oddities get `trans_method`, bounded oddities
additionally get `bounds`, everything else is called plainly; non-frame
output is re-wrapped from the tracked index/columns, and the tracked
columns follow a frame output of `FastICA`/`PCA`; a failure is wrapped
as `Transformer <name> failed on inverse` and aborts. -/
def gtInvLoop (tr : ℕ → TransObj) (steps : List (ℕ × TName))
    (tm : TransMethod) (bounds : Bool) (st : GTState) :
    Except PyErr GTState :=
  match steps with
  | [] => .ok st
  | (k, t) :: rest =>
    let call :=
      if t ∈ odditiesList then
        if t ∈ boundedOddities then
          (tr k).invTransform (some tm) (some bounds) st.cur
        else (tr k).invTransform (some tm) none st.cur
      else (tr k).invTransform none none st.cur
    match call with
    | .error e =>
        .error (.wrapped ("Transformer " ++ showTName t ++ " failed on inverse") e)
    | .ok pv =>
        match pv with
        | .raw m =>
            gtInvLoop tr rest tm bounds ⟨st.tIdx, st.tNames, ⟨st.tIdx, st.tNames, m⟩⟩
        | .table F =>
            if t = some "FastICA" ∨ t = some "PCA" then
              gtInvLoop tr rest tm bounds ⟨st.tIdx, F.names, F⟩
            else
              gtInvLoop tr rest tm bounds ⟨st.tIdx, st.tNames, F⟩

/-- `GeneralTransformer.inverse_transform`: descending key order,
followed by the optional `fillzero` fill. -/
def gtInverse (tr : ℕ → TransObj) (cfg : List (ℕ × TName))
    (df : DFrame) (tm : TransMethod) (fillzero bounds : Bool) :
    Except PyErr DFrame :=
  match gtInvLoop tr (sortStepsDesc cfg) tm bounds ⟨df.idx, df.names, df⟩ with
  | .error e => .error e
  | .ok st =>
      .ok (if fillzero then st.cur.mapCols (colFillWith (some 0)) else st.cur)

/-- Modelled from the spec's words (section 4.2 `inverse_transform`):
each step's arguments come from its classification — mode-aware steps
(the oddities list) receive the forecast/original flag, the alignment
step alone additionally receives the bounds flag, all others are called
mode-agnostically. -/
def classifyArgs (t : TName) (tm : TransMethod) (bounds : Bool) :
    Option TransMethod × Option Bool :=
  (if t ∈ odditiesList then some tm else none,
   if t = some "AlignLastValue" then some bounds else none)

/-- Modelled from the spec's words: the inverse loop as the spec
describes it — classify each step, call it with exactly the classified
flags, re-wrap any non-table output with the last tracked
index/columns. -/
def gtInvLoopSpec (tr : ℕ → TransObj) (steps : List (ℕ × TName))
    (tm : TransMethod) (bounds : Bool) (st : GTState) :
    Except PyErr GTState :=
  match steps with
  | [] => .ok st
  | (k, t) :: rest =>
    let args := classifyArgs t tm bounds
    match (tr k).invTransform args.1 args.2 st.cur with
    | .error e =>
        .error (.wrapped ("Transformer " ++ showTName t ++ " failed on inverse") e)
    | .ok pv =>
        match pv with
        | .raw m =>
            gtInvLoopSpec tr rest tm bounds ⟨st.tIdx, st.tNames, ⟨st.tIdx, st.tNames, m⟩⟩
        | .table F =>
            if t = some "FastICA" ∨ t = some "PCA" then
              gtInvLoopSpec tr rest tm bounds ⟨st.tIdx, F.names, F⟩
            else
              gtInvLoopSpec tr rest tm bounds ⟨st.tIdx, st.tNames, F⟩

/-- Modelled from the spec's words: `inverse_transform` applies the
classified steps in descending step-index order. -/
def gtInverseSpec (tr : ℕ → TransObj) (cfg : List (ℕ × TName))
    (df : DFrame) (tm : TransMethod) (fillzero bounds : Bool) :
    Except PyErr DFrame :=
  match gtInvLoopSpec tr (sortStepsDesc cfg) tm bounds ⟨df.idx, df.names, df⟩ with
  | .error e => .error e
  | .ok st =>
      .ok (if fillzero then st.cur.mapCols (colFillWith (some 0)) else st.cur)

/-! ## Multivariate-only fits (transform.py 2099-2434) -/

/-- `Cointegration.fit` (lines 2317-2327): guard on the column count,
then delegate to the Johansen procedure (an external capability, given
as an oracle). -/
def cointegrationFit (johansen : DFrame → List (List ℚ)) (df : DFrame) :
    Except String (List (List ℚ)) :=
  if df.width < 2 then .error "Coint only works on multivarate series"
  else .ok (johansen df)

/-- `BTCD.fit` (lines 2389-2409): guard on the column count, then
delegate to the Box-Tiao decomposition (external capability). -/
def btcdFit (decompose : DFrame → List (List ℚ)) (df : DFrame) :
    Except String (List (List ℚ)) :=
  if df.width < 2 then .error "BTCD only works on multivarate series"
  else .ok (decompose df)

/-- `PCA._fit` (lines 2180-2192): store columns and index, call the
sklearn decomposition (external capability, total here as sklearn PCA
accepts any column count >= 1), and return its output as a frame with
default integer column labels.  There is no series-count guard. -/
def pcaFit (skl : DFrame → List (List V)) (df : DFrame) :
    Except String DFrame :=
  .ok ⟨df.idx, (List.range (skl df).length).map toString, skl df⟩

/-- `FastICA._fit` (lines 2110-2122): identical shape to `PCA._fit`,
and likewise without a series-count guard. -/
def fastICAFit (skl : DFrame → List (List V)) (df : DFrame) :
    Except String DFrame :=
  .ok ⟨df.idx, (List.range (skl df).length).map toString, skl df⟩

/-! ## RandomTransform configuration sampler (transform.py 3723-3963) -/

/-- Per-step parameters: the literal `{0: {}}` of the no-op collapse is
`defaultP`; everything drawn through `get_transformer_params` comes from
the oracle. -/
inductive PParams
  | defaultP
  | oracleP (n : ℕ)
  deriving Repr, DecidableEq

/-- A sampled pipeline configuration. -/
structure RTConfig where
  fillna : TName
  transformations : List (ℕ × TName)
  transformationParams : List (ℕ × PParams)
  deriving Repr, DecidableEq

/-- The outcomes of the random draws inside one `RandomTransform` call,
passed explicitly: the NaN-fill pick, `random.randint` for the depth,
the `["None", "Some"]` pick, the four `traditional_order` picks, and the
with-replacement transform-name picks. -/
structure RTDraws where
  naPick : TName
  numTrans : ℤ
  nonePick : String
  randos : ℕ → TName
  transPick : ℕ → TName

/-- The weights of the depth-1 no-op draw
`random.choices(["None", "Some"], [0.1, 0.9])`. -/
def noneChoiceWeights : List (String × ℚ) := [("None", 1 / 10), ("Some", 9 / 10)]

/-- The module-level default `transformer_dict` catalog with its
weights. -/
def transformerDictE : List (TName × ℚ) :=
  [(none, 0), (some "MinMaxScaler", 5 / 100), (some "PowerTransformer", 2 / 100),
   (some "QuantileTransformer", 5 / 100), (some "MaxAbsScaler", 5 / 100),
   (some "StandardScaler", 4 / 100), (some "RobustScaler", 5 / 100),
   (some "PCA", 1 / 100), (some "FastICA", 1 / 100), (some "Detrend", 1 / 10),
   (some "RollingMeanTransformer", 2 / 100), (some "RollingMean100thN", 1 / 100),
   (some "DifferencedTransformer", 7 / 100), (some "SinTrend", 1 / 100),
   (some "PctChangeTransformer", 1 / 100), (some "CumSumTransformer", 2 / 100),
   (some "PositiveShift", 2 / 100), (some "Log", 1 / 100),
   (some "IntermittentOccurrence", 1 / 100), (some "SeasonalDifference", 1 / 10),
   (some "cffilter", 1 / 100), (some "bkfilter", 5 / 100),
   (some "convolution_filter", 1 / 1000), (some "HPFilter", 1 / 100),
   (some "DatepartRegression", 1 / 100), (some "ClipOutliers", 5 / 100),
   (some "Discretize", 1 / 100), (some "CenterLastValue", 1 / 100),
   (some "Round", 2 / 100), (some "Slice", 2 / 100), (some "ScipyFilter", 2 / 100),
   (some "STLFilter", 1 / 100), (some "EWMAFilter", 2 / 100),
   (some "MeanDifference", 2 / 1000), (some "BTCD", 1 / 100),
   (some "Cointegration", 1 / 100), (some "AlignLastValue", 1 / 5),
   (some "AnomalyRemoval", 3 / 100), (some "HolidayTransformer", 1 / 100),
   (some "LocalLinearTrend", 1 / 100), (some "KalmanSmoothing", 1 / 100)]

/-- Build the returned configuration from the chosen transform names:
`dict(zip(range(len(trans)), trans))` and one parameter draw per name. -/
def mkRTConfig (na : TName) (pm : Option String)
    (paramsFor : Option String → TName → PParams) (trans : List TName) :
    RTConfig :=
  ⟨na, (List.range trans.length).zip trans,
   (List.range trans.length).zip (trans.map (paramsFor pm))⟩

/-- The depth-bound adjustment at the top of `RandomTransform`:
`if transformer_max_depth <= 0` both bounds collapse to zero.  The
bounds only feed `random.randint(min, max)`, whose outcome is the
`numTrans` draw; theorems constrain the draw through this function. -/
def rtDepthBounds (maxDepth minDepth : ℤ) : ℤ × ℤ :=
  if maxDepth ≤ 0 then (0, 0) else (minDepth, maxDepth)

/-- `RandomTransform` (lines 3868-3963), over an already resolved
transformer catalog (`transformer_list_to_dict` output) and with the
random draws passed in `draws`.  Control flow mirrors the source: the
depth bounds collapse at `transformer_max_depth <= 0`; a depth-1 draw
with `allow_none` returns the single no-op step when the weighted pick
lands on "None"; `traditional_order` builds the fixed
clip/detrend/free/align slots and truncates them to the sampled depth;
otherwise the names are the weighted picks. -/
def RandomTransformE (tlist : List (TName × ℚ)) (_maxDepth _minDepth : ℤ)
    (traditionalOrder allowNone noNanFill : Bool)
    (paramsFor : Option String → TName → PParams) (draws : RTDraws) :
    RTConfig :=
  let names := tlist.map (·.1)
  let fastParams : Bool := if some "BTCD" ∈ names then false else true
  let superfastParams : Bool :=
    if some "DatepartRegression" ∈ names ∨ some "ScipyFilter" ∈ names ∨
        some "QuantileTransformer" ∈ names then false else true
  let paramsMethod : Option String :=
    if fastParams = true ∨ superfastParams = true then some "fast" else none
  let naChoice := if noNanFill then none else draws.naPick
  if draws.numTrans = 1 ∧ allowNone = true ∧ draws.nonePick = "None" then
    ⟨naChoice, [(0, none)], [(0, .defaultP)]⟩
  else
    let k := draws.numTrans.toNat
    if traditionalOrder then
      let clip := if some "ClipOutliers" ∈ names then some "ClipOutliers"
                  else draws.randos 0
      let detrend := if some "Detrend" ∈ names then some "Detrend"
                     else draws.randos 1
      let discretize := if some "AlignLastValue" ∈ names then some "AlignLastValue"
                        else draws.randos 2
      let trans := ([clip, detrend, draws.randos 3, discretize]).take k
      mkRTConfig naChoice paramsMethod paramsFor trans
    else
      let trans := (List.range k).map draws.transPick
      mkRTConfig naChoice paramsMethod paramsFor trans

/-! ## Concrete sample data for witnesses and counterexamples -/

/-- A small NaN-free three-row, one-column frame. -/
def sampleF : DFrame := ⟨[0, 1, 2], ["a"], [[some 1, some 2, some 3]]⟩

/-- A single-column frame (`df.shape[1] = 1`). -/
def oneColF : DFrame := ⟨[0, 1], ["a"], [[some 1, some 2]]⟩

/-- A one-row, one-column frame. -/
def oneRowF : DFrame := ⟨[0], ["a"], [[some 1]]⟩

/-- A one-row frame holding a NaN. -/
def nanRowF : DFrame := ⟨[1], ["a"], [[none]]⟩

/-- A seven-row constant frame (shorter than the default rolling window
of 10). -/
def constF7 : DFrame :=
  ⟨[0, 1, 2, 3, 4, 5, 6], ["a"],
   [[some 1, some 1, some 1, some 1, some 1, some 1, some 1]]⟩

/-- A nine-row constant frame (constant in particular per phase of 7). -/
def constF9 : DFrame :=
  ⟨[0, 1, 2, 3, 4, 5, 6, 7, 8], ["a"],
   [[some 1, some 1, some 1, some 1, some 1, some 1, some 1, some 1, some 1]]⟩

/-- A transformer object whose every method raises `boom`. -/
def boomObj : TransObj :=
  ⟨fun _ => .error (.base "boom"), fun _ => .error (.base "boom"),
   fun _ _ _ => .error (.base "boom")⟩

/-- An orchestrator state over `sampleF`. -/
def sampleState : GTState := ⟨[0, 1, 2], ["a"], sampleF⟩

/-- Draw outcomes for a traditional-order `RandomTransform` call with a
sampled depth of 5. -/
def c8TradDraws : RTDraws :=
  ⟨some "ffill", 5, "Some", fun _ => some "Log", fun _ => some "Log"⟩

/-- Draw outcomes for a plain `RandomTransform` call with a sampled
depth of 2. -/
def c8PlainDraws : RTDraws :=
  ⟨some "ffill", 2, "Some", fun _ => some "Log", fun _ => some "Log"⟩

/-! ## Theorems -/

/-- C5: `date_part`'s `common_fourier` band choice is a function of the
`years_spanned / sample_count` ratio bucketed at
`{0.001, 0.012, 0.05, 0.5}` alone, and the two concrete instances of the
claim: an hourly year (8760 samples spanning one year) lands in the
hourly bucket and selects the hourly/weekly/yearly set, and five daily
years (1826 samples spanning five years) land in the daily bucket and
select the daily/weekly set. -/
theorem C5_common_fourier_ratio_bucketing :
    (∀ (minYear maxYear : ℤ) (count : ℕ),
        commonFourierTerms minYear maxYear count =
          bandsOfBucket (bucketOf (yearsPerSample minYear maxYear count))) ∧
    yearsPerSample 2020 2020 8760 < 1 / 1000 ∧
    bucketOf (yearsPerSample 2020 2020 8760) = FourierBucket.hourly ∧
    commonFourierTerms 2020 2020 8760 = hourlyWeeklyYearlyBands ∧
    (1 / 1000 ≤ yearsPerSample 2019 2023 1826 ∧
      yearsPerSample 2019 2023 1826 < 12 / 1000) ∧
    bucketOf (yearsPerSample 2019 2023 1826) = FourierBucket.daily ∧
    commonFourierTerms 2019 2023 1826 = dailyWeeklyBands := by
  have hfact : ∀ (a b : ℤ) (c : ℕ),
      commonFourierTerms a b c = bandsOfBucket (bucketOf (yearsPerSample a b c)) := by
    intro a b c
    simp only [commonFourierTerms, bucketOf]
    split_ifs <;> rfl
  have h1 : yearsPerSample 2020 2020 8760 = 1 / 8760 := by
    norm_num [yearsPerSample]
  have h2 : yearsPerSample 2019 2023 1826 = 5 / 1826 := by
    norm_num [yearsPerSample]
  have hb1 : bucketOf (yearsPerSample 2020 2020 8760) = FourierBucket.hourly := by
    rw [h1]; unfold bucketOf; rw [if_pos (by norm_num)]
  have hb2 : bucketOf (yearsPerSample 2019 2023 1826) = FourierBucket.daily := by
    rw [h2]; unfold bucketOf
    rw [if_neg (by norm_num), if_pos (by norm_num)]
  refine ⟨hfact, by rw [h1]; norm_num, hb1, by rw [hfact, hb1]; rfl,
    ⟨by rw [h2]; norm_num, by rw [h2]; norm_num⟩, hb2, by rw [hfact, hb2]; rfl⟩

/-- C10: `SeasonalDifference` built with any method string other than
`Mean`/`Median` behaves exactly as with `LastValue` — identical fit
state, transform output and inverse output — and no error is raised
(the fit-time `self.method == "LastValue"` line is a bare comparison). -/
theorem C10_seasonal_difference_method_fallback :
    ∀ (m : String), m ≠ "Mean" → m ≠ "Median" →
    ∀ (lag : ℕ) (df d : DFrame) (tm : TransMethod),
      seasonalDifferenceFit m lag df = seasonalDifferenceFit "LastValue" lag df ∧
      seasonalDifferenceTransform (seasonalDifferenceFit m lag df) d =
        seasonalDifferenceTransform (seasonalDifferenceFit "LastValue" lag df) d ∧
      seasonalDifferenceInverse (seasonalDifferenceFit m lag df) tm d =
        seasonalDifferenceInverse (seasonalDifferenceFit "LastValue" lag df) tm d := by
  intro m h1 h2 lag df d tm
  have hf : seasonalDifferenceFit m lag df = df.tailN lag := by
    unfold seasonalDifferenceFit
    rw [if_neg]
    push_neg
    exact ⟨h1, h2⟩
  have hg : seasonalDifferenceFit "LastValue" lag df = df.tailN lag := by
    unfold seasonalDifferenceFit
    rw [if_neg]
    push_neg
    exact ⟨by decide, by decide⟩
  rw [hf, hg]
  exact ⟨rfl, rfl, rfl⟩

/-- Witness for C10 at the method string `Glorp`. -/
theorem C10_seasonal_difference_method_fallback_witness :
    seasonalDifferenceFit "Glorp" 7 sampleF =
      seasonalDifferenceFit "LastValue" 7 sampleF ∧
    seasonalDifferenceTransform (seasonalDifferenceFit "Glorp" 7 sampleF) sampleF =
      seasonalDifferenceTransform (seasonalDifferenceFit "LastValue" 7 sampleF) sampleF ∧
    seasonalDifferenceInverse (seasonalDifferenceFit "Glorp" 7 sampleF) TransMethod.forecast sampleF =
      seasonalDifferenceInverse (seasonalDifferenceFit "LastValue" 7 sampleF) TransMethod.forecast sampleF :=
  C10_seasonal_difference_method_fallback "Glorp" (by decide) (by decide) 7
    sampleF sampleF TransMethod.forecast

/-- C4 (amended): on a frame with fewer than two columns,
`Cointegration.fit` and `BTCD.fit` raise their multivariate-required
errors, while `PCA._fit` and `FastICA._fit` contain no series-count
guard and succeed for any decomposition capability. -/
theorem C4_amended_multivariate_guards :
    ∀ (df : DFrame), df.width < 2 →
    ∀ (johansen decompose : DFrame → List (List ℚ))
      (skl skl2 : DFrame → List (List V)),
      cointegrationFit johansen df =
        .error "Coint only works on multivarate series" ∧
      btcdFit decompose df = .error "BTCD only works on multivarate series" ∧
      (pcaFit skl df).isOk = true ∧
      (fastICAFit skl2 df).isOk = true := by
  intro df h johansen decompose skl skl2
  refine ⟨?_, ?_, rfl, rfl⟩
  · unfold cointegrationFit
    rw [if_pos h]
  · unfold btcdFit
    rw [if_pos h]

/-- Witness for the amended C4 at a concrete single-column frame. -/
theorem C4_amended_multivariate_guards_witness :
    cointegrationFit (fun _ => []) oneColF =
      .error "Coint only works on multivarate series" ∧
    btcdFit (fun _ => []) oneColF =
      .error "BTCD only works on multivarate series" ∧
    (pcaFit (fun F => F.cols) oneColF).isOk = true ∧
    (fastICAFit (fun F => F.cols) oneColF).isOk = true :=
  C4_amended_multivariate_guards oneColF (by decide) (fun _ => []) (fun _ => [])
    (fun F => F.cols) (fun F => F.cols)

/-- Counterexample to C4 as stated: `PCA._fit` and `FastICA._fit` do not
raise on a single-column frame — they succeed. -/
theorem C4_counterexample_pca_single_column :
    oneColF.width = 1 ∧
    (pcaFit (fun F => F.cols) oneColF).isOk = true ∧
    (fastICAFit (fun F => F.cols) oneColF).isOk = true :=
  ⟨rfl, rfl, rfl⟩

/-- C3 (amended): within the difference family, only
`DifferencedTransformer` in `forecast` mode guards against undefined
values — it fails exactly when the seed-plus-input concatenation holds a
NaN; its `original` mode and both modes of `CumSumTransformer` and
`PctChangeTransformer` never raise. -/
theorem C3_amended_nan_guard :
    (∀ (st : DiffState) (d : DFrame),
        (differencedInverse st .forecast d).isOk = false ↔
          (st.last.vconcat d).anyNaN = true) ∧
    (∀ (st : DiffState) (d : DFrame),
        (differencedInverse st .original d).isOk = true) ∧
    (∀ (st : CumState) (tm : TransMethod) (d : DFrame),
        (cumsumInverse st tm d).isOk = true) ∧
    (∀ (st : PctState) (tm : TransMethod) (d : DFrame),
        (pctChangeInverse st tm d).isOk = true) := by
  refine ⟨?_, ?_, ?_, ?_⟩
  · intro st d
    unfold differencedInverse
    cases h : (st.last.vconcat d).anyNaN with
    | false => simp [h, Except.isOk, Except.toBool]
    | true => simp [h, Except.isOk, Except.toBool]
  · intro st d
    rfl
  · intro st tm d
    cases tm <;> rfl
  · intro st tm d
    cases tm <;> rfl

/-- Counterexample to C3 as stated: the cumulative re-integration of
`CumSumTransformer.inverse_transform` in forecast mode on a NaN input
yields a NaN-bearing frame and raises nothing. -/
theorem C3_counterexample_cumsum_nan_no_raise :
    cumsumInverse (cumsumFit oneRowF) .forecast nanRowF = .ok nanRowF ∧
    nanRowF.anyNaN = true :=
  ⟨rfl, rfl⟩

/-- The fit loop processes a concatenation sequentially: monadic
composition. -/
theorem gtFitLoop_append (registry : TName → DFrame → TransObj)
    (l1 l2 : List (ℕ × TName)) (st : GTState) :
    gtFitLoop registry (l1 ++ l2) st =
      (gtFitLoop registry l1 st).bind (gtFitLoop registry l2) := by
  induction l1 generalizing st with
  | nil => rfl
  | cons a rest ih =>
    obtain ⟨k, t⟩ := a
    cases h : (registry t st.cur).fitTransform st.cur with
    | error e => simp [gtFitLoop, h, Except.bind]
    | ok pv =>
      by_cases hc : (t = some "Slice" ∨ t = some "FastICA" ∨ t = some "PCA") <;>
        simp [gtFitLoop, h, hc, ih]

/-- The transform loop processes a concatenation sequentially. -/
theorem gtTransformLoop_append (tr : ℕ → TransObj)
    (l1 l2 : List (ℕ × TName)) (st : GTState) :
    gtTransformLoop tr (l1 ++ l2) st =
      (gtTransformLoop tr l1 st).bind (gtTransformLoop tr l2) := by
  induction l1 generalizing st with
  | nil => rfl
  | cons a rest ih =>
    obtain ⟨k, t⟩ := a
    cases h : (tr k).transform st.cur with
    | error e => simp [gtTransformLoop, h, Except.bind]
    | ok pv =>
      by_cases hc : (t = some "Slice" ∨ t = some "FastICA" ∨ t = some "PCA") <;>
        simp [gtTransformLoop, h, hc, ih]

/-- The inverse loop processes a concatenation sequentially. -/
theorem gtInvLoop_append (tr : ℕ → TransObj) (l1 l2 : List (ℕ × TName))
    (tm : TransMethod) (bounds : Bool) (st : GTState) :
    gtInvLoop tr (l1 ++ l2) tm bounds st =
      (gtInvLoop tr l1 tm bounds st).bind (gtInvLoop tr l2 tm bounds) := by
  induction l1 generalizing st with
  | nil => rfl
  | cons a rest ih =>
    obtain ⟨k, t⟩ := a
    by_cases ho : t ∈ odditiesList
    · by_cases hb : t ∈ boundedOddities
      · cases h : (tr k).invTransform (some tm) (some bounds) st.cur with
        | error e => simp [gtInvLoop, ho, hb, h, Except.bind]
        | ok pv =>
          cases pv with
          | raw m => simp [gtInvLoop, ho, hb, h, ih]
          | table F =>
            by_cases hf : (t = some "FastICA" ∨ t = some "PCA") <;>
              simp [gtInvLoop, ho, hb, h, hf, ih]
      · cases h : (tr k).invTransform (some tm) none st.cur with
        | error e => simp [gtInvLoop, ho, hb, h, Except.bind]
        | ok pv =>
          cases pv with
          | raw m => simp [gtInvLoop, ho, hb, h, ih]
          | table F =>
            by_cases hf : (t = some "FastICA" ∨ t = some "PCA") <;>
              simp [gtInvLoop, ho, hb, h, hf, ih]
    · cases h : (tr k).invTransform none none st.cur with
      | error e => simp [gtInvLoop, ho, h, Except.bind]
      | ok pv =>
        cases pv with
        | raw m => simp [gtInvLoop, ho, h, ih]
        | table F =>
          by_cases hf : (t = some "FastICA" ∨ t = some "PCA") <;>
            simp [gtInvLoop, ho, h, hf, ih]

/-- C2 (amended): when every step before some step `(k, t)` succeeds and
that step's method raises, `_fit` and `inverse_transform` abort at once
with an exception wrapped as `Transformer <t> failed on fit/inverse` —
regardless of any later steps (`l2` is arbitrary and never runs, so
there is no partial recovery or retry) — whereas `transform` re-raises
the step's exception unmodified, without naming the step. -/
theorem C2_amended_failure_wrapping :
    (∀ (registry : TName → DFrame → TransObj) (l1 l2 : List (ℕ × TName))
        (k : ℕ) (t : TName) (st st' : GTState) (e : PyErr),
        gtFitLoop registry l1 st = .ok st' →
        (registry t st'.cur).fitTransform st'.cur = .error e →
        gtFitLoop registry (l1 ++ (k, t) :: l2) st =
          .error (.wrapped ("Transformer " ++ showTName t ++ " failed on fit") e)) ∧
    (∀ (tr : ℕ → TransObj) (l1 l2 : List (ℕ × TName)) (k : ℕ) (t : TName)
        (tm : TransMethod) (bounds : Bool) (st st' : GTState) (e : PyErr),
        gtInvLoop tr l1 tm bounds st = .ok st' →
        (∀ mo bo df0, (tr k).invTransform mo bo df0 = .error e) →
        gtInvLoop tr (l1 ++ (k, t) :: l2) tm bounds st =
          .error (.wrapped ("Transformer " ++ showTName t ++ " failed on inverse") e)) ∧
    (∀ (tr : ℕ → TransObj) (l1 l2 : List (ℕ × TName)) (k : ℕ) (t : TName)
        (st st' : GTState) (e : PyErr),
        gtTransformLoop tr l1 st = .ok st' →
        (tr k).transform st'.cur = .error e →
        gtTransformLoop tr (l1 ++ (k, t) :: l2) st = .error e) := by
  refine ⟨?_, ?_, ?_⟩
  · intro registry l1 l2 k t st st' e hok hfail
    rw [gtFitLoop_append, hok]
    simp [Except.bind, gtFitLoop, hfail]
  · intro tr l1 l2 k t tm bounds st st' e hok hfail
    rw [gtInvLoop_append, hok]
    by_cases ho : t ∈ odditiesList
    · by_cases hb : t ∈ boundedOddities <;>
        simp [Except.bind, gtInvLoop, ho, hb, hfail]
    · simp [Except.bind, gtInvLoop, ho, hfail]
  · intro tr l1 l2 k t st st' e hok hfail
    rw [gtTransformLoop_append, hok]
    simp [Except.bind, gtTransformLoop, hfail]

/-- Witness for the amended C2: a single failing step named
`StandardScaler`; fit and inverse wrap and name it, transform re-raises
the bare error. -/
theorem C2_amended_failure_wrapping_witness :
    gtFitLoop (fun _ _ => boomObj) [(0, some "StandardScaler")] sampleState =
      .error (.wrapped "Transformer StandardScaler failed on fit" (.base "boom")) ∧
    gtInvLoop (fun _ => boomObj) [(0, some "StandardScaler")] .forecast false
        sampleState =
      .error (.wrapped "Transformer StandardScaler failed on inverse" (.base "boom")) ∧
    gtTransformLoop (fun _ => boomObj) [(0, some "StandardScaler")] sampleState =
      .error (.base "boom") :=
  ⟨C2_amended_failure_wrapping.1 (fun _ _ => boomObj) [] [] 0
      (some "StandardScaler") sampleState sampleState (.base "boom") rfl rfl,
   C2_amended_failure_wrapping.2.1 (fun _ => boomObj) [] [] 0
      (some "StandardScaler") .forecast false sampleState sampleState (.base "boom")
      rfl (fun _ _ _ => rfl),
   C2_amended_failure_wrapping.2.2 (fun _ => boomObj) [] [] 0
      (some "StandardScaler") sampleState sampleState (.base "boom") rfl rfl⟩

/-- Counterexample to C2 as stated: a step failure inside
`GeneralTransformer.transform` is re-raised bare — the resulting
exception is no wrapper and names no step. -/
theorem C2_counterexample_transform_unwrapped :
    gtTransform (fun _ => boomObj) (fun F => F) [(0, some "StandardScaler")]
        sampleF = .error (.base "boom") ∧
    (∀ (s : String) (c : PyErr), PyErr.base "boom" ≠ PyErr.wrapped s c) := by
  constructor
  · simp [gtTransform, sortStepsAsc, sampleF, gtTransformLoop, boomObj,
      DFrame.anyNaN, Except.map]
  · intro s c h
    exact PyErr.noConfusion h

/-- The code-shaped inverse loop agrees step by step with the spec-shaped
loop: the nested oddity/bounded-oddity conditionals compute exactly the
classification "mode-aware steps get the trans_method flag, AlignLastValue
alone additionally gets the bounds flag, the rest are called plainly". -/
theorem gtInvLoop_eq_spec (tr : ℕ → TransObj) (steps : List (ℕ × TName))
    (tm : TransMethod) (bounds : Bool) (st : GTState) :
    gtInvLoop tr steps tm bounds st = gtInvLoopSpec tr steps tm bounds st := by
  induction steps generalizing st with
  | nil => rfl
  | cons a rest ih =>
    obtain ⟨k, t⟩ := a
    by_cases ho : t ∈ odditiesList
    · by_cases hb : t ∈ boundedOddities
      · have ht : t = some "AlignLastValue" := by
          simpa [boundedOddities] using hb
        subst ht
        cases h : (tr k).invTransform (some tm) (some bounds) st.cur with
        | error e => simp [gtInvLoop, gtInvLoopSpec, classifyArgs, ho, hb, h]
        | ok pv =>
          cases pv with
          | raw m => simp [gtInvLoop, gtInvLoopSpec, classifyArgs, ho, hb, h, ih]
          | table F =>
            simp [gtInvLoop, gtInvLoopSpec, classifyArgs, ho, hb, h, ih]
      · have ht : t ≠ some "AlignLastValue" := by
          intro h
          exact hb (by simp [boundedOddities, h])
        cases h : (tr k).invTransform (some tm) none st.cur with
        | error e => simp [gtInvLoop, gtInvLoopSpec, classifyArgs, ho, hb, ht, h]
        | ok pv =>
          cases pv with
          | raw m => simp [gtInvLoop, gtInvLoopSpec, classifyArgs, ho, hb, ht, h, ih]
          | table F =>
            by_cases hf : (t = some "FastICA" ∨ t = some "PCA") <;>
              simp [gtInvLoop, gtInvLoopSpec, classifyArgs, ho, hb, ht, h, hf, ih]
    · have ht : t ≠ some "AlignLastValue" := by
        intro h
        subst h
        exact ho (by decide)
      cases h : (tr k).invTransform none none st.cur with
      | error e => simp [gtInvLoop, gtInvLoopSpec, classifyArgs, ho, ht, h]
      | ok pv =>
        cases pv with
        | raw m => simp [gtInvLoop, gtInvLoopSpec, classifyArgs, ho, ht, h, ih]
        | table F =>
          by_cases hf : (t = some "FastICA" ∨ t = some "PCA") <;>
            simp [gtInvLoop, gtInvLoopSpec, classifyArgs, ho, ht, h, hf, ih]

/-- C7: `GeneralTransformer.inverse_transform` equals its specification
reading — the steps are processed in descending step-index order
(`sortStepsDesc cfg` is a descending-sorted permutation of the fitted
steps), each step is called with exactly its classified flags
(mode-aware list gets `trans_method`, `AlignLastValue` alone also gets
`bounds`, the rest mode-agnostic), and non-table outputs are re-wrapped
from the tracked index/columns. -/
theorem C7_inverse_dispatch :
    ∀ (tr : ℕ → TransObj) (cfg : List (ℕ × TName)) (df : DFrame)
      (tm : TransMethod) (fz b : Bool),
      gtInverse tr cfg df tm fz b = gtInverseSpec tr cfg df tm fz b ∧
      (sortStepsDesc cfg).Pairwise (fun a b2 => b2.1 ≤ a.1) ∧
      (sortStepsDesc cfg).Perm cfg := by
  intro tr cfg df tm fz b
  refine ⟨?_, ?_, ?_⟩
  · unfold gtInverse gtInverseSpec
    rw [gtInvLoop_eq_spec]
  · have h := @List.sorted_mergeSort (ℕ × TName)
      (fun a b2 => decide (b2.1 ≤ a.1))
      (fun a b2 c h1 h2 => by
        simp only [decide_eq_true_eq] at h1 h2 ⊢
        omega)
      (fun a b2 => by
        simp only [Bool.or_eq_true, decide_eq_true_eq]
        omega)
      cfg
    unfold sortStepsDesc
    exact h.imp (by simp)
  · exact List.mergeSort_perm cfg _

/-- C9: a transformation name in none of the registered catalogs
retrieves a plain `EmptyTransformer` (no exception), and a pipeline
configured with only that unknown name fits successfully, passing the
data through unchanged. -/
theorem C9_unknown_transform_identity :
    ∀ (name : String),
      some name ∉ transDictKeys → some name ∉ nJobsTransKeys →
      some name ∉ haveParamsKeys → name ∉ explicitBranchKeys →
      ∀ (known : String → DFrame → TransObj) (fillNA : DFrame → DFrame)
        (df : DFrame),
        (∀ F, retrieveTransformer known (some name) F = emptyTransObj) ∧
        (df.anyNaN = false →
          gtFit (retrieveTransformer known) fillNA [(0, some name)] df =
            .ok df) := by
  intro name h1 h2 h3 h4 known fillNA df
  simp only [explicitBranchKeys, List.mem_cons, List.not_mem_nil, or_false] at h4
  push_neg at h4
  have hr : ∀ F, retrieveTransformer known (some name) F = emptyTransObj := by
    intro F
    simp [retrieveTransformer, h1, h2, h3, h4]
  refine ⟨hr, ?_⟩
  intro hnan
  have hs : ¬(some name = some "Slice" ∨ some name = some "FastICA" ∨
      some name = some "PCA") := by
    rintro (hEq | hEq | hEq) <;>
      · rw [Option.some.injEq] at hEq
        exact h3 (by rw [hEq]; decide)
  unfold gtFit
  rw [if_neg (by simp [hnan])]
  simp [sortStepsAsc, gtFitLoop, hr, hs, emptyTransObj, wrapVal, Except.map]

/-- Witness for C9 at the concrete name `NotARealTransformer`. -/
theorem C9_unknown_transform_identity_witness :
    retrieveTransformer (fun _ _ => boomObj) (some "NotARealTransformer") sampleF =
      emptyTransObj ∧
    gtFit (retrieveTransformer (fun _ _ => boomObj)) (fun F => F)
        [(0, some "NotARealTransformer")] sampleF = .ok sampleF :=
  ⟨(C9_unknown_transform_identity "NotARealTransformer" (by decide) (by decide)
      (by decide) (by decide) (fun _ _ => boomObj) (fun F => F) sampleF).1 sampleF,
   (C9_unknown_transform_identity "NotARealTransformer" (by decide) (by decide)
      (by decide) (by decide) (fun _ _ => boomObj) (fun F => F) sampleF).2 rfl⟩

/-- C8 (amended): without `traditional_order`, every draw outcome of
`RandomTransform` whose depth draw respects `1 <= min <= depth <= max`
yields consecutive integer keys `0..k-1` on both dictionaries, one
parameter entry per chosen transform, with `min <= k <= max`; a depth-1
draw with `allow_none` collapses to the single no-op step exactly when
the `["None", "Some"]` pick (weighted 0.1 / 0.9) lands on "None".  (With
`traditional_order` the slot list is truncated to at most 4 steps, which
can violate the lower bound — see the counterexample.) -/
theorem C8_amended_random_transform_shape :
    ∀ (tlist : List (TName × ℚ)) (maxD minD : ℤ) (allowNone noNanFill : Bool)
      (paramsFor : Option String → TName → PParams) (draws : RTDraws),
      1 ≤ minD → minD ≤ draws.numTrans → draws.numTrans ≤ maxD →
      (∃ k : ℕ,
        (RandomTransformE tlist maxD minD false allowNone noNanFill paramsFor
            draws).transformations.map Prod.fst = List.range k ∧
        (RandomTransformE tlist maxD minD false allowNone noNanFill paramsFor
            draws).transformationParams.map Prod.fst = List.range k ∧
        (RandomTransformE tlist maxD minD false allowNone noNanFill paramsFor
            draws).transformationParams.length =
          (RandomTransformE tlist maxD minD false allowNone noNanFill paramsFor
            draws).transformations.length ∧
        minD ≤ (k : ℤ) ∧ (k : ℤ) ≤ maxD ∧
        ((draws.numTrans = 1 ∧ allowNone = true ∧ draws.nonePick = "None") →
          (RandomTransformE tlist maxD minD false allowNone noNanFill paramsFor
              draws).transformations = [(0, none)] ∧
          (RandomTransformE tlist maxD minD false allowNone noNanFill paramsFor
              draws).transformationParams = [(0, .defaultP)])) ∧
      rtDepthBounds maxD minD = (minD, maxD) ∧
      noneChoiceWeights = [("None", 1 / 10), ("Some", 9 / 10)] := by
  intro tlist maxD minD allowNone noNanFill paramsFor draws hmin hlo hhi
  refine ⟨?_, ?_, rfl⟩
  · by_cases hcol : (draws.numTrans = 1 ∧ allowNone = true ∧
        draws.nonePick = "None")
    · have h1 := hcol.1
      refine ⟨1, ?_, ?_, ?_, by omega, by omega, fun _ => ⟨?_, ?_⟩⟩ <;>
        · simp only [RandomTransformE]
          rw [if_pos hcol]
          try rfl
    · have hk : ((draws.numTrans.toNat : ℤ)) = draws.numTrans := by omega
      refine ⟨draws.numTrans.toNat, ?_, ?_, ?_, by omega, by omega, ?_⟩
      · simp only [RandomTransformE]
        rw [if_neg hcol]
        simp only [mkRTConfig, List.length_map, List.length_range]
        exact List.map_fst_zip _ _ (by simp)
      · simp only [RandomTransformE]
        rw [if_neg hcol]
        simp only [mkRTConfig, List.length_map, List.length_range]
        exact List.map_fst_zip _ _ (by simp)
      · simp only [RandomTransformE]
        rw [if_neg hcol]
        simp [mkRTConfig]
      · intro hc
        exact absurd hc hcol
  · unfold rtDepthBounds
    rw [if_neg (by omega)]

/-- Witness for the amended C8: a plain draw of depth 2 within bounds
`[1, 3]` over the default catalog. -/
theorem C8_amended_random_transform_shape_witness :
    (∃ k : ℕ,
      (RandomTransformE transformerDictE 3 1 false true false
          (fun _ _ => .defaultP) c8PlainDraws).transformations.map Prod.fst =
        List.range k ∧
      (RandomTransformE transformerDictE 3 1 false true false
          (fun _ _ => .defaultP) c8PlainDraws).transformationParams.map Prod.fst =
        List.range k ∧
      (RandomTransformE transformerDictE 3 1 false true false
          (fun _ _ => .defaultP) c8PlainDraws).transformationParams.length =
        (RandomTransformE transformerDictE 3 1 false true false
          (fun _ _ => .defaultP) c8PlainDraws).transformations.length ∧
      (1 : ℤ) ≤ (k : ℤ) ∧ (k : ℤ) ≤ 3 ∧
      ((c8PlainDraws.numTrans = 1 ∧ true = true ∧ c8PlainDraws.nonePick = "None") →
        (RandomTransformE transformerDictE 3 1 false true false
            (fun _ _ => .defaultP) c8PlainDraws).transformations = [(0, none)] ∧
        (RandomTransformE transformerDictE 3 1 false true false
            (fun _ _ => .defaultP) c8PlainDraws).transformationParams =
          [(0, .defaultP)])) ∧
    rtDepthBounds 3 1 = (1, 3) ∧
    noneChoiceWeights = [("None", 1 / 10), ("Some", 9 / 10)] :=
  C8_amended_random_transform_shape transformerDictE 3 1 true false
    (fun _ _ => .defaultP) c8PlainDraws (by decide) (by decide) (by decide)

/-- Counterexample to C8 as stated: with `traditional_order` and depth
bounds `min = max = 5`, the sampled depth 5 is within bounds, yet the
returned configuration has only the 4 slot keys `0..3` — below
`transformer_min_depth`. -/
theorem C8_counterexample_traditional_truncation :
    c8TradDraws.numTrans = 5 ∧ (1 : ℤ) ≤ 5 ∧
    (RandomTransformE transformerDictE 5 5 true true false
        (fun _ _ => .defaultP) c8TradDraws).transformations.map Prod.fst =
      [0, 1, 2, 3] ∧
    (RandomTransformE transformerDictE 5 5 true true false
        (fun _ _ => .defaultP) c8TradDraws).transformations.length = 4 ∧
    ¬ ((5 : ℤ) ≤ (4 : ℤ)) := by
  refine ⟨rfl, by omega, ?_, ?_, by omega⟩ <;> rfl

/-- `np.tile` length: `reps` copies of the block. -/
theorem tileL_length (r : ℕ) (b : List V) : (tileL r b).length = r * b.length := by
  induction r with
  | zero => simp [tileL]
  | succ k ih =>
    simp only [tileL, List.length_append, ih]
    ring

/-- Reading the tiled block at any in-range position wraps modulo the
block length. -/
theorem tileL_getD (r : ℕ) (b : List V) (t : ℕ) (_hb : 0 < b.length)
    (ht : t < r * b.length) : (tileL r b).getD t none = b.getD (t % b.length) none := by
  induction r generalizing t with
  | zero => omega
  | succ k ih =>
    rw [Nat.succ_mul] at ht
    by_cases h : t < b.length
    · simp only [tileL]
      rw [List.getD_append _ _ _ _ h, Nat.mod_eq_of_lt h]
    · push_neg at h
      simp only [tileL]
      rw [List.getD_append_right _ _ _ _ h, Nat.mod_eq_sub_mod h]
      exact ih (t - b.length) (by omega)

/-- `getD` through `zipWith` at an in-range position. -/
theorem getD_zipWith_of_lt (f : V → V → V) (as bs : List V) (j : ℕ)
    (h1 : j < as.length) (h2 : j < bs.length) :
    (List.zipWith f as bs).getD j none = f (as.getD j none) (bs.getD j none) := by
  induction as generalizing bs j with
  | nil => simp at h1
  | cons a t ih =>
    cases bs with
    | nil => simp at h2
    | cons b tb =>
      cases j with
      | zero => rfl
      | succ k => exact ih tb k (by simpa using h1) (by simpa using h2)

/-- `getD` through `drop`. -/
theorem getD_drop_add (l : List V) (k j : ℕ) :
    (l.drop k).getD j none = l.getD (k + j) none := by
  induction k generalizing l with
  | zero => simp
  | succ m ih =>
    cases l with
    | nil => simp
    | cons a t =>
      rw [List.drop_succ_cons, ih t]
      have h : m + 1 + j = (m + j) + 1 := by omega
      rw [h]
      rfl

/-- `getD` through `seriesTail`. -/
theorem seriesTail_getD (k : ℕ) (l : List V) (j : ℕ) :
    (seriesTail k l).getD j none = l.getD (l.length - k + j) none := by
  unfold seriesTail
  exact getD_drop_add l _ j

/-- Length of `seriesTail`. -/
theorem seriesTail_length (k : ℕ) (l : List V) :
    (seriesTail k l).length = l.length - (l.length - k) := by
  simp [seriesTail]

/-- `getD` of a constant map at an in-range position. -/
theorem getD_map_const_zero (c : List V) (j : ℕ) (h : j < c.length) :
    (c.map (fun _ => (some 0 : V))).getD j none = some 0 := by
  induction c generalizing j with
  | nil => simp at h
  | cons a t ih =>
    cases j with
    | zero => rfl
    | succ k => exact ih k (by simpa using h)

/-- A `getD` at an in-range position is a member. -/
theorem getD_mem_of_lt (c : List V) (j : ℕ) (h : j < c.length) :
    c.getD j none ∈ c := by
  rw [List.getD_eq_getElem c none h]
  exact List.getElem_mem h

/-- One column of the C6 computation: on a NaN-free column constant per
phase of 7, subtracting the end-aligned tiling of its last seven values
gives all zeros. -/
theorem sd_col_zero (c : List V)
    (hno : ∀ v ∈ c, v.isSome)
    (hph : ∀ i j, i < c.length → j < c.length → i % 7 = j % 7 →
      c.getD i none = c.getD j none) :
    List.zipWith vSub c
        (seriesTail c.length
          (tileL (ceilDiv c.length (min 7 c.length)) (seriesTail 7 c))) =
      c.map (fun _ => some 0) := by
  by_cases h7 : c.length ≤ 7
  · have hts : seriesTail 7 c = c := by
      unfold seriesTail
      rw [Nat.sub_eq_zero_of_le h7]
      exact List.drop_zero c
    rcases Nat.eq_zero_or_pos c.length with h0 | hpos
    · rw [List.eq_nil_of_length_eq_zero h0]
      simp [seriesTail, tileL, ceilDiv]
    · have hmin : min 7 c.length = c.length := by omega
      have hcd : ceilDiv c.length c.length = 1 := by
        unfold ceilDiv
        have h1 : c.length + c.length - 1 = (c.length - 1) + c.length := by omega
        rw [h1, Nat.add_div_right _ hpos, Nat.div_eq_of_lt (by omega)]
      have htile : tileL 1 c = c := by simp [tileL]
      have htn : seriesTail c.length c = c := by
        unfold seriesTail
        rw [Nat.sub_self]
        exact List.drop_zero c
      rw [hts, hmin, hcd, htile, htn, List.zipWith_same]
      refine List.map_congr_left ?_
      intro v hv
      obtain ⟨x, rfl⟩ := Option.isSome_iff_exists.mp (hno v hv)
      simp [vSub]
  · push_neg at h7
    have hmin : min 7 c.length = 7 := by omega
    rw [hmin]
    set B := seriesTail 7 c with hB
    set R := ceilDiv c.length 7 with hR
    have hblock : B.length = 7 := by
      rw [hB, seriesTail_length]
      omega
    have hrb : c.length ≤ 7 * R ∧ 7 * R < c.length + 7 := by
      rw [hR]
      unfold ceilDiv
      omega
    have htl : (tileL R B).length = R * 7 := by
      rw [tileL_length, hblock]
    have hsd : (seriesTail c.length (tileL R B)).length = c.length := by
      rw [seriesTail_length, htl]
      omega
    have key : ∀ j, j < c.length →
        (List.zipWith vSub c (seriesTail c.length (tileL R B))).getD j none =
          some 0 := by
      intro j hj
      rw [getD_zipWith_of_lt vSub _ _ j hj (by rw [hsd]; exact hj)]
      rw [seriesTail_getD, htl]
      rw [tileL_getD R B (R * 7 - c.length + j) (by omega) (by rw [hblock]; omega)]
      rw [hblock, hB, seriesTail_getD]
      have hph1 : c.getD (c.length - 7 + (R * 7 - c.length + j) % 7) none =
          c.getD j none := by
        have hm7 : (R * 7 - c.length + j) % 7 < 7 := Nat.mod_lt _ (by omega)
        refine hph _ j (by omega) hj ?_
        omega
      rw [hph1]
      obtain ⟨x, hx⟩ := Option.isSome_iff_exists.mp
        (hno (c.getD j none) (getD_mem_of_lt c j hj))
      rw [hx]
      simp [vSub]
    refine List.ext_getElem (by simp [hsd]) ?_
    intro j hj1 hj2
    have hjl : j < c.length := by
      simp only [List.length_zipWith, hsd, Nat.min_self] at hj1
      exact hj1
    rw [← List.getD_eq_getElem _ none hj1, ← List.getD_eq_getElem _ none hj2]
    rw [key j hjl, getD_map_const_zero c j hjl]

/-- C6: `SeasonalDifference(lag_1=7, method="LastValue")` applied via
`fit_transform` to a well-formed NaN-free frame whose values are
constant within each residue class of row position modulo 7 yields the
all-zero frame. -/
theorem C6_seasonal_difference_phase_constant :
    ∀ (df : DFrame), df.WF → df.noNaN →
      (∀ c ∈ df.cols, ∀ i j, i < c.length → j < c.length → i % 7 = j % 7 →
        c.getD i none = c.getD j none) →
      seasonalDifferenceTransform (seasonalDifferenceFit "LastValue" 7 df) df =
        ⟨df.idx, df.names, df.cols.map (fun c => c.map (fun _ => some 0))⟩ := by
  intro df hWF hno hph
  have hfit : seasonalDifferenceFit "LastValue" 7 df = df.tailN 7 := by
    unfold seasonalDifferenceFit
    rw [if_neg (by decide)]
  rw [hfit]
  unfold seasonalDifferenceTransform DFrame.tailN DFrame.rows
  refine congrArg (DFrame.mk df.idx df.names) ?_
  have hlen : (df.idx.drop (df.idx.length - 7)).length = min 7 df.idx.length := by
    simp only [List.length_drop]
    omega
  rw [hlen, List.zipWith_map_right, List.zipWith_same]
  refine List.map_congr_left ?_
  intro c hc
  have hcl : c.length = df.idx.length := hWF c hc
  rw [← hcl]
  exact sd_col_zero c (hno c hc) (hph c hc)

/-- Witness for C6 at a concrete nine-row constant frame. -/
theorem C6_seasonal_difference_phase_constant_witness :
    seasonalDifferenceTransform (seasonalDifferenceFit "LastValue" 7 constF9)
        constF9 =
      ⟨constF9.idx, constF9.names,
       constF9.cols.map (fun c => c.map (fun _ => some 0))⟩ :=
  C6_seasonal_difference_phase_constant constF9
    (by simp [DFrame.WF, constF9])
    (by simp [DFrame.noNaN, constF9]) (by
    intro c hc i j hi hj hmod
    simp only [constF9, List.mem_cons, List.not_mem_nil, or_false] at hc
    subst hc
    simp only [List.length_cons, List.length_nil] at hi hj
    interval_cases i <;> interval_cases j <;> rfl)

/-- Length of a lifted column. -/
theorem someL_length (xs : List ℚ) : (someL xs).length = xs.length := by
  simp [someL]

/-- `getD` of a lifted column in range. -/
theorem someL_getD (xs : List ℚ) (j : ℕ) (h : j < xs.length) :
    (someL xs).getD j none = some (xs.getD j 0) := by
  induction xs generalizing j with
  | nil => simp at h
  | cons a t ih =>
    cases j with
    | zero => rfl
    | succ k => exact ih k (by simpa using h)

/-- `take` commutes with the lift. -/
theorem someL_take (xs : List ℚ) (k : ℕ) :
    (someL xs).take k = someL (xs.take k) := by
  simp [someL, List.map_take]

/-- `drop` commutes with the lift. -/
theorem someL_drop (xs : List ℚ) (k : ℕ) :
    (someL xs).drop k = someL (xs.drop k) := by
  simp [someL, List.map_drop]

/-- Forward fill is the identity on NaN-free columns. -/
theorem ffill_someL (xs : List ℚ) : ffill (someL xs) = someL xs := by
  have h : ∀ (l : List ℚ) (carry : V), ffillAux carry (someL l) = someL l := by
    intro l
    induction l with
    | nil => intro carry; rfl
    | cons a t ih =>
        intro carry
        show some a :: ffillAux (some a) (someL t) = some a :: someL t
        rw [ih (some a)]
  exact h xs none

/-- Backward fill is the identity on NaN-free columns. -/
theorem bfill_someL (xs : List ℚ) : bfill (someL xs) = someL xs := by
  induction xs with
  | nil => rfl
  | cons a t ih =>
      show (some a :: bfill (someL t)) = some a :: someL t
      rw [ih]

/-- Recovering the values of a NaN-free column. -/
theorem col_noNaN_rep (c : List V) (h : ∀ v ∈ c, v.isSome) :
    ∃ xs : List ℚ, c = someL xs := by
  induction c with
  | nil => exact ⟨[], rfl⟩
  | cons a t ih =>
    obtain ⟨xs, hxs⟩ := ih (fun v hv => h v (List.mem_cons_of_mem a hv))
    obtain ⟨x, hx⟩ := Option.isSome_iff_exists.mp (h a (List.mem_cons_self a t))
    exact ⟨x :: xs, by rw [hx, hxs]; rfl⟩

/-- Pointwise subtraction of lifted columns. -/
theorem zipWith_vSub_someL (a b : List ℚ) :
    List.zipWith vSub (someL a) (someL b) =
      someL (List.zipWith (fun x y => x - y) a b) := by
  induction a generalizing b with
  | nil => rfl
  | cons x t ih =>
    cases b with
    | nil => rfl
    | cons y u =>
        show vSub (some x) (some y) :: List.zipWith vSub (someL t) (someL u) =
          someL ((x - y) :: List.zipWith (fun p q => p - q) t u)
        rw [ih u]
        rfl

/-- Truncating the right operand of `zipWith` to the left operand's
length changes nothing. -/
theorem zipWith_take_right_self {α β γ : Type} (f : α → β → γ)
    (a : List α) (b : List β) :
    List.zipWith f a (b.take a.length) = List.zipWith f a b := by
  induction a generalizing b with
  | nil => rfl
  | cons x t ih =>
    cases b with
    | nil => rfl
    | cons y u => simp [List.take_succ_cons, ih]

/-- Subtracting the one-step shift of a nonempty column: NaN head, then
consecutive differences. -/
theorem sub_shift_cons (s0 : V) (S : List V) :
    List.zipWith vSub (s0 :: S) (shiftN 1 (s0 :: S)) =
      none :: List.zipWith vSub S (s0 :: S) := by
  have h1 : shiftN 1 (s0 :: S) = none :: (s0 :: S).take S.length := by
    simp [shiftN, List.take_succ_cons]
  rw [h1]
  have h2 : vSub s0 none = none := by cases s0 <;> rfl
  simp only [List.zipWith_cons_cons, h2]
  rw [zipWith_take_right_self]

/-- Telescoping: integrating the consecutive differences of `l` against
the seed `a` returns `l`. -/
theorem cumsum_diff_tele (l : List ℚ) (a : ℚ) :
    cumsumAux a (someL (List.zipWith (fun p q => p - q) l (a :: l))) = someL l := by
  induction l generalizing a with
  | nil => rfl
  | cons b t ih =>
    have h1 : List.zipWith (fun p q => p - q) (b :: t) (a :: b :: t) =
        (b - a) :: List.zipWith (fun p q => p - q) t (b :: t) := rfl
    rw [h1]
    show some (a + (b - a)) :: cumsumAux (a + (b - a))
        (someL (List.zipWith (fun p q => p - q) t (b :: t))) = someL (b :: t)
    rw [add_sub_cancel a b, ih b]
    rfl

/-- Consecutive differences of a running cumulative sum recover the
underlying values. -/
theorem cumsum_sub_prev (l : List ℚ) (y : ℚ) :
    List.zipWith vSub (cumsumAux y (someL l)) (some y :: cumsumAux y (someL l)) =
      someL l := by
  induction l generalizing y with
  | nil => rfl
  | cons b t ih =>
    show vSub (some (y + b)) (some y) ::
        List.zipWith vSub (cumsumAux (y + b) (someL t))
          (some (y + b) :: cumsumAux (y + b) (someL t)) = someL (b :: t)
    rw [ih (y + b)]
    show some (y + b - y) :: someL t = someL (b :: t)
    rw [add_sub_cancel_left y b]
    rfl

/-- `getD` through `take` at an in-range position. -/
theorem getD_take_of_lt (l : List V) (m j : ℕ) (h : j < m) :
    (l.take m).getD j none = l.getD j none := by
  induction l generalizing m j with
  | nil => simp
  | cons a t ih =>
    cases m with
    | zero => omega
    | succ k =>
      cases j with
      | zero => rfl
      | succ i => exact ih k i (by omega)

/-- `getD` through a one-step shift at a successor position. -/
theorem shiftN_one_getD_succ (l : List V) (k : ℕ) (h : k + 1 < l.length) :
    (shiftN 1 l).getD (k + 1) none = l.getD k none := by
  unfold shiftN
  rw [getD_take_of_lt _ _ _ h]
  rfl

/-- `getD` through the scalar multiplication map (NaN maps to NaN, so no
range condition is needed). -/
theorem getD_map_vScale (c : ℚ) (l : List V) (j : ℕ) :
    (l.map (vScale c)).getD j none = vScale c (l.getD j none) := by
  induction l generalizing j with
  | nil => rfl
  | cons a t ih =>
    cases j with
    | zero => rfl
    | succ k => exact ih k

/-- `getD` of a function tabulated over `List.range`. -/
theorem getD_map_range {α : Type} [Inhabited α] (f : ℕ → α) (n t : ℕ)
    (h : t < n) (d : α) : ((List.range n).map f).getD t d = f t := by
  rw [List.getD_eq_getElem _ d (by simpa using h)]
  simp

/-- The rolling mean of a NaN-free column at a position with a full
window: the window sum over the window length. -/
theorem rollingMeanV_someL_getD (w : ℕ) (xs : List ℚ) (t : ℕ)
    (hw : 1 ≤ w) (ht : t < xs.length) (hfull : w ≤ t + 1) :
    (rollingMeanV w (someL xs)).getD t none =
      some (((xs.take (t + 1)).sum - (xs.take (t + 1 - w)).sum) / w) := by
  unfold rollingMeanV
  rw [someL_length]
  rw [getD_map_range _ _ _ ht]
  have hws : windowSlice w t (someL xs) = someL ((xs.take (t + 1)).drop (t + 1 - w)) := by
    unfold windowSlice
    rw [someL_take, someL_drop]
  rw [hws]
  have hfm : (someL ((xs.take (t + 1)).drop (t + 1 - w))).filterMap id =
      (xs.take (t + 1)).drop (t + 1 - w) := by
    unfold someL
    rw [List.filterMap_map]
    exact List.filterMap_some _
  rw [hfm]
  have hlt : (xs.take (t + 1)).length = t + 1 := by
    simp
    omega
  have hlen : ((xs.take (t + 1)).drop (t + 1 - w)).length = w := by
    simp [hlt]
    omega
  rw [if_neg (by omega)]
  have hsum : ((xs.take (t + 1)).drop (t + 1 - w)).sum =
      (xs.take (t + 1)).sum - (xs.take (t + 1 - w)).sum := by
    have h1 := List.sum_take_add_sum_drop (xs.take (t + 1)) (t + 1 - w)
    have h2 : (xs.take (t + 1)).take (t + 1 - w) = xs.take (t + 1 - w) := by
      rw [List.take_take]
      congr 1
      omega
    rw [h2] at h1
    linarith
  rw [hsum, hlen]

/-- The sum of a prefix grows by the element at the boundary. -/
theorem sum_take_succ_getD (xs : List ℚ) (m : ℕ) (h : m < xs.length) :
    (xs.take (m + 1)).sum = (xs.take m).sum + xs.getD m 0 := by
  rw [List.sum_take_succ xs m h]
  congr 1
  rw [List.getD_eq_getElem xs 0 h]

/-- Appending the boundary element to a prefix extends it by one. -/
theorem take_append_getD (X : List V) (s : ℕ) (h : s < X.length) :
    X.take s ++ [X.getD s none] = X.take (s + 1) := by
  rw [List.take_succ, List.getElem?_eq_getElem h, List.getD_eq_getElem X none h]
  rfl

/-- The sequential reconstruction loop: if the staged prefix is
`X.take s`, the loop reads position `j` while appending position `s`,
and each difference row bridges the two, the loop rebuilds
`X.take (s + length)`. -/
theorem stagedLoop_spec (dL : List V) (X : List V) (j s : ℕ)
    (hjs : j < s) (hlen : s + dL.length ≤ X.length)
    (hstep : ∀ i, i < dL.length →
      vAdd (dL.getD i none) (X.getD (j + i) none) = X.getD (s + i) none) :
    stagedLoop (X.take s) dL j = X.take (s + dL.length) := by
  induction dL generalizing j s with
  | nil => rfl
  | cons d ds ih =>
    show stagedLoop (X.take s ++ [vAdd d ((X.take s).getD j none)]) ds (j + 1) = _
    have hs : s < X.length := by
      simp at hlen
      omega
    have h1 : (X.take s).getD j none = X.getD j none := getD_take_of_lt X s j hjs
    have h2 : vAdd d (X.getD j none) = X.getD s none := by
      have := hstep 0 (by simp)
      simpa using this
    rw [h1, h2, take_append_getD X s hs]
    have h3 := ih (j + 1) (s + 1) (by omega) (by simp at hlen ⊢; omega)
      (fun i hi => by
        have := hstep (i + 1) (by simp; omega)
        have e1 : j + (i + 1) = j + 1 + i := by omega
        have e2 : s + (i + 1) = s + 1 + i := by omega
        rwa [e1, e2] at this)
    rw [h3]
    congr 1
    simp
    omega

/-- `shift` preserves length. -/
theorem shiftN_length (k : ℕ) (l : List V) : (shiftN k l).length = l.length := by
  simp [shiftN]

/-- Rolling mean preserves length. -/
theorem rollingMeanV_length (w : ℕ) (l : List V) :
    (rollingMeanV w l).length = l.length := by
  simp [rollingMeanV]

/-- pandas `tail(len - 1)` drops exactly the first row (also for the
empty and one-row cases, via the `tail(0)`/negative conventions). -/
theorem seriesTailI_len_sub_one (L : List V) :
    seriesTailI ((L.length : ℤ) - 1) L = L.drop 1 := by
  unfold seriesTailI
  by_cases h0 : (L.length : ℤ) - 1 = 0
  · rw [if_pos h0]
    have h1 : L.length = 1 := by omega
    symm
    exact List.drop_eq_nil_of_le (by omega)
  · rw [if_neg h0]
    by_cases h1 : 0 < (L.length : ℤ) - 1
    · rw [if_pos h1]
      congr 1
      omega
    · rw [if_neg h1]
      have h2 : L.length = 0 := by omega
      rw [List.eq_nil_of_length_eq_zero h2]
      simp

/-- Backfilling a NaN head in front of a nonempty NaN-free tail copies
the first tail value. -/
theorem bfill_none_cons (p : ℚ) (ps : List ℚ) :
    bfill (none :: someL (p :: ps)) = some p :: someL (p :: ps) := by
  show (bfill (someL (p :: ps))).headD none :: bfill (someL (p :: ps)) = _
  rw [bfill_someL]
  rfl

/-- The `DifferencedTransformer` round trip on one NaN-free column:
first value, then the dropped-head differences, re-integrated. -/
theorem diffRound_col (xs : List ℚ) :
    cumsum ((someL xs).take 1 ++
      seriesTailI ((xs.length : ℤ) - 1)
        (bfill (List.zipWith vSub (someL xs) (shiftN 1 (someL xs))))) = someL xs := by
  cases xs with
  | nil => rfl
  | cons x t =>
    cases t with
    | nil =>
      show cumsum ([some x] ++ seriesTailI 0 (bfill (List.zipWith vSub
        (someL [x]) (shiftN 1 (someL [x]))))) = someL [x]
      show cumsum [some x] = someL [x]
      show [some ((0 : ℚ) + x)] = [some x]
      rw [zero_add]
    | cons y u =>
      have hc : someL (x :: y :: u) = some x :: someL (y :: u) := rfl
      have h1 : List.zipWith vSub (someL (x :: y :: u))
          (shiftN 1 (someL (x :: y :: u))) =
          none :: someL (List.zipWith (fun p q => p - q) (y :: u) (x :: y :: u)) := by
        rw [hc, sub_shift_cons, ← hc, zipWith_vSub_someL]
      rw [h1]
      have h2 : List.zipWith (fun p q => p - q) (y :: u) (x :: y :: u) =
          (y - x) :: List.zipWith (fun p q => p - q) u (y :: u) := rfl
      rw [h2, bfill_none_cons]
      have h3 : ((x :: y :: u).length : ℤ) - 1 =
          (((some (y - x) :: someL ((y - x) :: List.zipWith (fun p q => p - q) u (y :: u))).length : ℤ)) - 1 := by
        simp [someL]
      rw [h3, seriesTailI_len_sub_one]
      show cumsum (some x :: someL ((y - x) :: List.zipWith (fun p q => p - q) u (y :: u))) =
        someL (x :: y :: u)
      show some ((0 : ℚ) + x) :: cumsumAux ((0 : ℚ) + x)
          (someL ((y - x) :: List.zipWith (fun p q => p - q) u (y :: u))) = someL (x :: y :: u)
      rw [zero_add]
      have h4 : (y - x) :: List.zipWith (fun p q => p - q) u (y :: u) =
          List.zipWith (fun p q => p - q) (y :: u) (x :: y :: u) := rfl
      rw [h4, cumsum_diff_tele (y :: u) x]
      rfl

/-- The `CumSumTransformer` round trip on one NaN-free column: first
value, then the dropped-head consecutive differences of the cumulative
sums. -/
theorem cumsumRound_col (xs : List ℚ) :
    (someL xs).take 1 ++
      seriesTailI ((xs.length : ℤ) - 1)
        (List.zipWith vSub (cumsum (someL xs)) (shiftN 1 (cumsum (someL xs)))) =
      someL xs := by
  cases xs with
  | nil => rfl
  | cons x t =>
    have hS : cumsum (someL (x :: t)) =
        some ((0 : ℚ) + x) :: cumsumAux ((0 : ℚ) + x) (someL t) := rfl
    rw [hS, sub_shift_cons, cumsum_sub_prev t ((0 : ℚ) + x)]
    have h3 : ((x :: t).length : ℤ) - 1 =
        (((none :: someL t) : List V).length : ℤ) - 1 := by
      simp [someL]
    rw [h3, seriesTailI_len_sub_one]
    show (some x :: ([] : List V)) ++ (none :: someL t).drop 1 = someL (x :: t)
    rfl

/-- Row `w + i` of the scaled differenced rolling means of a NaN-free
column with a full window: `window * (r[t] - r[t-1]) = x[t] - x[t-w]`. -/
theorem rolling_diffed_getD (w : ℕ) (xs : List ℚ) (i : ℕ) (hw : 1 ≤ w)
    (hi : w + i < xs.length) :
    ((List.map (vScale (w : ℚ))
        (List.zipWith vSub (rollingMeanV w (someL xs))
          (shiftN 1 (rollingMeanV w (someL xs))))).drop w).getD i none =
      some (xs.getD (w + i) 0 - xs.getD i 0) := by
  set r := rollingMeanV w (someL xs) with hr
  have hrlen : r.length = xs.length := by
    rw [hr, rollingMeanV_length, someL_length]
  rw [getD_drop_add, getD_map_vScale,
    getD_zipWith_of_lt _ _ _ _ (by omega) (by rw [shiftN_length]; omega)]
  have hidx : w + i = (w + i - 1) + 1 := by omega
  rw [hidx, shiftN_one_getD_succ r _ (by omega), ← hidx]
  rw [hr, rollingMeanV_someL_getD w xs (w + i) hw hi (by omega),
    rollingMeanV_someL_getD w xs (w + i - 1) hw (by omega) (by omega)]
  have e1 : w + i + 1 - w = i + 1 := by omega
  have e2 : w + i - 1 + 1 = w + i := by omega
  have e3 : w + i - w = i := by omega
  rw [e1, e2, e3]
  show some ((w : ℚ) * (((xs.take (w + i + 1)).sum - (xs.take (i + 1)).sum) / w -
      ((xs.take (w + i)).sum - (xs.take i).sum) / w)) = _
  have hw0 : ((w : ℚ)) ≠ 0 := by
    simp
    omega
  have hs1 : (xs.take (w + i + 1)).sum = (xs.take (w + i)).sum + xs.getD (w + i) 0 :=
    sum_take_succ_getD xs (w + i) hi
  have hs2 : (xs.take (i + 1)).sum = (xs.take i).sum + xs.getD i 0 :=
    sum_take_succ_getD xs i (by omega)
  rw [hs1, hs2]
  congr 1
  field_simp
  ring

/-- The `RollingMeanTransformer` round trip on one NaN-free column of at
least `window` rows: the staged sequential reconstruction rebuilds the
column exactly. -/
theorem rollingRound_col (w : ℕ) (xs : List ℚ) (hw : 1 ≤ w)
    (hwn : w ≤ xs.length) :
    stagedLoop (bfill (ffill ((someL xs).take w)))
      (seriesTailI ((xs.length : ℤ) - (w : ℤ))
        (List.map (vScale (w : ℚ))
          (List.zipWith vSub (rollingMeanV w (someL xs))
            (shiftN 1 (rollingMeanV w (someL xs)))))) 0 = someL xs := by
  have hst : bfill (ffill ((someL xs).take w)) = (someL xs).take w := by
    rw [someL_take, ffill_someL, bfill_someL, ← someL_take]
  rw [hst]
  set M := List.map (vScale (w : ℚ))
    (List.zipWith vSub (rollingMeanV w (someL xs))
      (shiftN 1 (rollingMeanV w (someL xs)))) with hM
  have hMlen : M.length = xs.length := by
    rw [hM]
    simp only [List.length_map, List.length_zipWith, shiftN_length,
      rollingMeanV_length, someL_length, Nat.min_self]
  by_cases hwe : xs.length = w
  · have h0 : ((xs.length : ℤ) - (w : ℤ)) = 0 := by omega
    rw [h0]
    show (someL xs).take w = someL xs
    rw [someL_take, List.take_of_length_le (by omega)]
  · have hlt : w < xs.length := by omega
    have harg : seriesTailI ((xs.length : ℤ) - (w : ℤ)) M = M.drop w := by
      unfold seriesTailI
      rw [if_neg (by omega), if_pos (by omega)]
      congr 1
      rw [hMlen]
      omega
    rw [harg]
    have hdrop_len : (M.drop w).length = xs.length - w := by
      simp [hMlen]
    have hspec := stagedLoop_spec (M.drop w) (someL xs) 0 w (by omega)
      (by rw [someL_length, hdrop_len]; omega)
      (fun i hi => by
        rw [hdrop_len] at hi
        rw [hM]
        rw [rolling_diffed_getD w xs i hw (by omega)]
        rw [Nat.zero_add]
        rw [someL_getD xs i (by omega), someL_getD xs (w + i) (by omega)]
        show some (xs.getD (w + i) 0 - xs.getD i 0 + xs.getD i 0) = _
        rw [sub_add_cancel])
    rw [hspec, hdrop_len, someL_take]
    have hfull : w + (xs.length - w) = xs.length := by omega
    rw [hfull, List.take_of_length_le (by omega)]

/-- The index component of pandas `tail(len - 1)` drops the first
entry. -/
theorem tailI_idx_drop_one {α : Type} (L : List α) :
    (if ((L.length : ℤ) - 1) = 0 then ([] : List α)
     else if 0 < (L.length : ℤ) - 1 then
       L.drop (L.length - ((L.length : ℤ) - 1).toNat)
     else L.drop (-((L.length : ℤ) - 1)).toNat) = L.drop 1 := by
  by_cases h0 : ((L.length : ℤ) - 1) = 0
  · rw [if_pos h0]
    symm
    exact List.drop_eq_nil_of_le (by omega)
  · rw [if_neg h0]
    by_cases h1 : 0 < (L.length : ℤ) - 1
    · rw [if_pos h1]
      congr 1
      omega
    · rw [if_neg h1]
      have h2 : L.length = 0 := by omega
      rw [List.eq_nil_of_length_eq_zero h2]
      simp

/-- The index component of pandas `tail(len - w)` recombines with the
first `w` entries to the whole index when `w <= len`. -/
theorem tailI_idx_take_append {α : Type} (L : List α) (w : ℕ) (h : w ≤ L.length) :
    L.take w ++
      (if ((L.length : ℤ) - (w : ℤ)) = 0 then ([] : List α)
       else if 0 < (L.length : ℤ) - (w : ℤ) then
         L.drop (L.length - ((L.length : ℤ) - (w : ℤ)).toNat)
       else L.drop (-((L.length : ℤ) - (w : ℤ))).toNat) = L := by
  by_cases h0 : ((L.length : ℤ) - (w : ℤ)) = 0
  · rw [if_pos h0]
    rw [List.append_nil]
    exact List.take_of_length_le (by omega)
  · rw [if_neg h0, if_pos (by omega)]
    have h2 : L.length - ((L.length : ℤ) - (w : ℤ)).toNat = w := by omega
    rw [h2]
    exact List.take_append_drop w L

/-- Frame-level `DifferencedTransformer` round trip in `original` mode. -/
theorem differenced_frame_roundtrip (X : DFrame) (hWF : X.WF) (hno : X.noNaN) :
    differencedInverse (differencedFit X) .original (differencedTransform X) =
      .ok X := by
  obtain ⟨idx, names, cols⟩ := X
  unfold DFrame.WF at hWF
  unfold DFrame.noNaN at hno
  simp only at hWF hno
  unfold differencedInverse differencedFit differencedTransform DFrame.headN
    DFrame.vconcat DFrame.tailI DFrame.mapCols DFrame.sub DFrame.zipCols
    DFrame.rows
  simp only [List.zipWith_map_right, List.zipWith_map_left, List.zipWith_same,
    List.map_map]
  refine congrArg Except.ok ?_
  rw [DFrame.mk.injEq]
  refine ⟨by rw [tailI_idx_drop_one idx]; exact List.take_append_drop 1 idx, rfl, ?_⟩
  conv_rhs => rw [← List.map_id cols]
  refine List.map_congr_left ?_
  intro c hc
  obtain ⟨xs, rfl⟩ := col_noNaN_rep c (hno c hc)
  have hcl : (someL xs).length = idx.length := hWF (someL xs) hc
  rw [someL_length] at hcl
  show cumsum ((someL xs).take 1 ++
    seriesTailI ((idx.length : ℤ) - 1)
      (bfill (List.zipWith vSub (someL xs) (shiftN 1 (someL xs))))) = id (someL xs)
  rw [← hcl]
  exact diffRound_col xs

/-- Frame-level `CumSumTransformer` round trip in `original` mode. -/
theorem cumsum_frame_roundtrip (X : DFrame) (hWF : X.WF) (hno : X.noNaN) :
    cumsumInverse (cumsumFit X) .original (cumsumTransform X) = .ok X := by
  obtain ⟨idx, names, cols⟩ := X
  unfold DFrame.WF at hWF
  unfold DFrame.noNaN at hno
  simp only at hWF hno
  unfold cumsumInverse cumsumFit cumsumTransform DFrame.headN DFrame.tailN
    DFrame.vconcat DFrame.tailI DFrame.mapCols DFrame.sub DFrame.zipCols
    DFrame.rows
  simp only [List.zipWith_map_right, List.zipWith_map_left, List.zipWith_same,
    List.map_map]
  refine congrArg Except.ok ?_
  rw [DFrame.mk.injEq]
  refine ⟨by rw [tailI_idx_drop_one idx]; exact List.take_append_drop 1 idx,
    rfl, ?_⟩
  conv_rhs => rw [← List.map_id cols]
  refine List.map_congr_left ?_
  intro c hc
  obtain ⟨xs, rfl⟩ := col_noNaN_rep c (hno c hc)
  have hcl : (someL xs).length = idx.length := hWF (someL xs) hc
  rw [someL_length] at hcl
  show (someL xs).take 1 ++
      seriesTailI ((idx.length : ℤ) - 1)
        (List.zipWith vSub (cumsum (someL xs)) (shiftN 1 (cumsum (someL xs)))) =
      id (someL xs)
  rw [← hcl]
  exact cumsumRound_col xs

/-- Frame-level `RollingMeanTransformer` round trip in `original` mode
on a frame of at least `window` rows (default configuration
`fixed = False`). -/
theorem rolling_frame_roundtrip (X : DFrame) (hWF : X.WF) (hno : X.noNaN)
    (w : ℕ) (hw : 1 ≤ w) (hwn : w ≤ X.rows) :
    rollingInverse (rollingFit w false X) .original (rollingTransform w X) = X := by
  obtain ⟨idx, names, cols⟩ := X
  unfold DFrame.WF at hWF
  unfold DFrame.noNaN at hno
  unfold DFrame.rows at hwn
  simp only at hWF hno hwn
  unfold rollingInverse rollingFit rollingTransform DFrame.headN DFrame.tailN
    DFrame.vconcat DFrame.tailI DFrame.mapCols DFrame.sub DFrame.zipCols
    DFrame.rows
  simp only [Bool.false_eq_true, if_false, List.zipWith_map_right,
    List.zipWith_map_left, List.zipWith_same, List.map_map]
  rw [DFrame.mk.injEq]
  refine ⟨tailI_idx_take_append idx w hwn, rfl, ?_⟩
  conv_rhs => rw [← List.map_id cols]
  refine List.map_congr_left ?_
  intro c hc
  obtain ⟨xs, rfl⟩ := col_noNaN_rep c (hno c hc)
  have hcl : (someL xs).length = idx.length := hWF (someL xs) hc
  rw [someL_length] at hcl
  show stagedLoop (bfill (ffill ((someL xs).take w)))
      (seriesTailI ((idx.length : ℤ) - (w : ℤ))
        (List.map (vScale (w : ℚ))
          (List.zipWith vSub (rollingMeanV w (someL xs))
            (shiftN 1 (rollingMeanV w (someL xs)))))) 0 = id (someL xs)
  rw [← hcl]
  exact rollingRound_col w xs hw (by omega)

/-- C1 (amended): on a well-formed NaN-free frame, `original`-mode
inversion of the transform of the exact fit-time support is the
identity for `DifferencedTransformer` and `CumSumTransformer`
unconditionally, and for `RollingMeanTransformer` (its default
`fixed=False` configuration) whenever the frame has at least `window`
rows. -/
theorem C1_amended_exact_reconstruction :
    ∀ (X : DFrame), X.WF → X.noNaN →
      differencedInverse (differencedFit X) .original (differencedTransform X) =
        .ok X ∧
      cumsumInverse (cumsumFit X) .original (cumsumTransform X) = .ok X ∧
      (∀ w : ℕ, 1 ≤ w → w ≤ X.rows →
        rollingInverse (rollingFit w false X) .original (rollingTransform w X) =
          X) :=
  fun X hWF hno =>
    ⟨differenced_frame_roundtrip X hWF hno,
     cumsum_frame_roundtrip X hWF hno,
     fun w hw hwn => rolling_frame_roundtrip X hWF hno w hw hwn⟩

/-- Witness for the amended C1 at a concrete three-row frame with
window 2. -/
theorem C1_amended_exact_reconstruction_witness :
    differencedInverse (differencedFit sampleF) .original
        (differencedTransform sampleF) = .ok sampleF ∧
    cumsumInverse (cumsumFit sampleF) .original (cumsumTransform sampleF) =
      .ok sampleF ∧
    rollingInverse (rollingFit 2 false sampleF) .original
        (rollingTransform 2 sampleF) = sampleF := by
  have h := C1_amended_exact_reconstruction sampleF
    (by simp [DFrame.WF, sampleF]) (by simp [DFrame.noNaN, sampleF])
  exact ⟨h.1, h.2.1, h.2.2 2 (by decide) (by decide)⟩

/-- Counterexample to C1 as stated: `RollingMeanTransformer` with its
default window of 10, fitted on a NaN-free seven-row frame, does not
reconstruct the frame in `original` mode — pandas `tail(7 - 10)` keeps
four difference rows, so the inverse returns an eleven-row frame. -/
theorem C1_counterexample_rolling_short_frame :
    constF7.WF ∧ constF7.noNaN ∧
    rollingInverse (rollingFit 10 false constF7) .original
        (rollingTransform 10 constF7) ≠ constF7 := by
  refine ⟨by simp [DFrame.WF, constF7], by simp [DFrame.noNaN, constF7], ?_⟩
  intro h
  have hlen := congrArg (fun F => F.idx.length) h
  exact absurd hlen (by decide)
